import Mathlib

/-!
Verification development for the D&D initiative-tracker combat engine
(`initiative.c`).  The C functions are shallowly embedded as executable Lean
definitions: the roster is a `List Combatant` together with the separate
`count` field the C code keeps, machine `int` values are modelled as `Int`
(all values relevant to the claims stay inside the 32-bit range, which the
`parse_int_safe` model checks explicitly), the `uint16_t` condition bitmask
is a `Nat` kept below 2^16, and the save file is a list of lines, each line a
`List Char` (the bytes of the line without the trailing newline).  User
input (typed numbers, y/n confirmations, random rolls) becomes explicit
command parameters; the bounds that `get_input_int` enforces on accepted
input are modelled as guards at the start of the corresponding operation,
since out-of-range input is re-prompted or cancelled before any mutation.
-/

/-! ### Character helpers (ctype / strtol / sscanf / strtok models) -/

/-- Digit characters, written out so proofs can case on the digit value. -/
def digitChar : Nat → Char
  | 0 => '0' | 1 => '1' | 2 => '2' | 3 => '3' | 4 => '4'
  | 5 => '5' | 6 => '6' | 7 => '7' | 8 => '8' | _ => '9'

/-- `isdigit` from ctype.h, restricted to the decimal digits. -/
def charIsDigit (c : Char) : Bool := 48 ≤ c.toNat && c.toNat ≤ 57

/-- Numeric value of a digit character (`c - '0'`). -/
def charDigit (c : Char) : Nat := c.toNat - 48

/-- `isspace` from ctype.h: space, \t, \n, \v, \f, \r. -/
def charIsSpace (c : Char) : Bool := c.toNat = 32 || (9 ≤ c.toNat && c.toNat ≤ 13)

/-- Decimal rendering of a natural number, most significant digit first,
with explicit fuel so that the definition is structurally recursive and
evaluates inside the kernel.  `natCharsF (n+1) n` always has enough fuel. -/
def natCharsF : Nat → Nat → List Char
  | 0, _ => []
  | f + 1, n => if n < 10 then [digitChar n] else natCharsF f (n / 10) ++ [digitChar (n % 10)]

/-- Decimal rendering of a natural number (`printf "%u"`). -/
def natChars (n : Nat) : List Char := natCharsF (n + 1) n

/-- Decimal rendering of an integer (`printf "%d"`). -/
def intChars (i : Int) : List Char :=
  if i < 0 then '-' :: natChars i.natAbs else natChars i.toNat

/-- Greedy digit reader with accumulator: the core loop shared by the
`strtol` and `scanf "%d"` models. -/
def readDigits : List Char → Nat → Nat × List Char
  | [], acc => (acc, [])
  | c :: cs, acc =>
    if charIsDigit c then readDigits cs (acc * 10 + charDigit c) else (acc, c :: cs)

/-- Read an unsigned digit run (at least one digit required) and apply the
sign; the body of the `strtol` model after sign handling. -/
def readNum (neg : Bool) (l : List Char) : Option (Int × List Char) :=
  match l with
  | [] => none
  | c :: _ =>
    if charIsDigit c then
      let p := readDigits l 0
      some (if neg then -(p.1 : Int) else (p.1 : Int), p.2)
    else none

/-- `strtol(base 10)` / `scanf "%d"` number scan: skip leading whitespace,
optional sign, then at least one digit; returns the value and the unread
rest, or `none` if no digits were found. -/
def readIntScan (s : List Char) : Option (Int × List Char) :=
  match s.dropWhile charIsSpace with
  | [] => none
  | c :: cs =>
    if c = '-' then readNum true cs
    else if c = '+' then readNum false cs
    else readNum false (c :: cs)

def INT_MAX : Int := 2147483647
def INT_MIN : Int := -2147483648

/-- `parse_int_safe` from initiative.c: strtol, then skip trailing spaces
and tabs, accept only if the remainder is empty or starts with \n or \r,
and reject values outside the `int` range. -/
def parseIntSafe (s : List Char) : Option Int :=
  match readIntScan s with
  | none => none
  | some (v, rest) =>
    let r2 := rest.dropWhile (fun c => c = ' ' || c = '\t')
    match r2 with
    | [] => if INT_MIN ≤ v ∧ v ≤ INT_MAX then some v else none
    | c :: _ =>
      if c = '\n' ∨ c = '\r' then
        (if INT_MIN ≤ v ∧ v ≤ INT_MAX then some v else none)
      else none

/-- Join fields with `'|'` separators, as the `fprintf` calls in
`save_state` do. -/
def joinBar : List (List Char) → List Char
  | [] => []
  | [f] => f
  | f :: fs => f ++ '|' :: joinBar fs

/-- Raw split of a line at every `'|'`, keeping empty pieces. -/
def splitBarRaw : List Char → List (List Char)
  | [] => [[]]
  | c :: rest =>
    if c = '|' then [] :: splitBarRaw rest
    else
      match splitBarRaw rest with
      | t :: ts => (c :: t) :: ts
      | [] => [[c]]

/-- Drop the empty pieces of a raw split (strtok treats consecutive
delimiters as one and never returns an empty token). -/
def dropEmptyTokens : List (List Char) → List (List Char)
  | [] => []
  | t :: ts => if t.isEmpty then dropEmptyTokens ts else t :: dropEmptyTokens ts

/-- `strtok(line, "|")` token sequence: split at `'|'` and drop empty
pieces. -/
def strtokSplit (s : List Char) : List (List Char) :=
  dropEmptyTokens (splitBarRaw s)

/-- `sscanf(line, "%d|%d|...")`: read up to `n` integers separated by
literal `'|'` characters, stopping at the first conversion or literal that
fails; returns the successfully converted values in order (the count of
assigned conversions is the length of the result). -/
def scanfInts : Nat → List Char → List Int
  | 0, _ => []
  | n + 1, s =>
    match readIntScan s with
    | none => []
    | some (v, rest) =>
      v :: (match rest with
            | '|' :: r2 => scanfInts n r2
            | _ => [])

/-- `HeadNotDigit rest` says a digit scan stops exactly at `rest`. -/
def HeadNotDigit : List Char → Prop
  | [] => True
  | c :: _ => charIsDigit c = false

instance : DecidablePred HeadNotDigit := by
  intro l
  cases l with
  | nil => exact isTrue trivial
  | cons c cs => exact (inferInstance : Decidable (charIsDigit c = false))

/-! ### Data model (structs from initiative.c)

`MAX_COMBATANTS = 50`, `NAME_LENGTH = 32`, `NUM_CONDITIONS = 15`,
`MAX_UNDO_STACK = 10`, `COND_UNCONSCIOUS = 1 << 13 = 8192`.
`CombatantType` is kept as the `Int` the C code stores (0 = player,
1 = enemy), and the `is_stable` / `is_dead` flags are kept as `Int`
(the C fields are `int`s tested against zero). -/

structure Combatant where
  id : Int
  name : List Char
  initiative : Int
  dex : Int
  maxHp : Int
  hp : Int
  ctype : Int
  conditions : Nat
  conditionDuration : List Int
  deathSaveSuccesses : Int
  deathSaveFailures : Int
  isStable : Int
  isDead : Int
deriving DecidableEq

def zeroCombatant : Combatant :=
  { id := 0, name := [], initiative := 0, dex := 0, maxHp := 0, hp := 0,
    ctype := 0, conditions := 0, conditionDuration := List.replicate 15 0,
    deathSaveSuccesses := 0, deathSaveFailures := 0, isStable := 0, isDead := 0 }

structure UndoState where
  combatants : List Combatant
  count : Int
  currentTurnId : Int
  selectedId : Int
  round : Int
deriving DecidableEq

/-- `GameState`: the roster is the list of live combatants together with the
separate `count` field the C struct keeps (the two agree except in the
`load_state` failure paths, which is exactly the bug claim C2 is about).
The combat log is modelled by its entry count; entry payloads (timestamps,
formatted text) are view-layer data no claim depends on. -/
structure GameState where
  combatants : List Combatant
  count : Int
  currentTurnId : Int
  selectedId : Int
  round : Int
  nextId : Int
  logCount : Nat
  undoStack : List UndoState
deriving DecidableEq

/-- The state `main` starts from. -/
def initState : GameState :=
  { combatants := [], count := 0, currentTurnId := -1, selectedId := -1,
    round := 1, nextId := 1, logCount := 0, undoStack := [] }

/-- `log_action`: append one combat-log entry. -/
def logAction (s : GameState) : GameState := { s with logCount := s.logCount + 1 }

/-- `get_index_by_id`: linear scan, `none` models the C return value -1. -/
def getIndexById : List Combatant → Int → Option Nat
  | [], _ => none
  | c :: cs, tid =>
    if c.id = tid then some 0 else (getIndexById cs tid).map (· + 1)

/-- Array read `state->combatants[i]` (in-range in every state the
claims touch; out-of-range reads never occur on the proved paths). -/
def getC (l : List Combatant) (i : Nat) : Combatant := l.getD i zeroCombatant

/-- Array write `state->combatants[i] = c`. -/
def setC (l : List Combatant) (i : Nat) (c : Combatant) : List Combatant := l.set i c

/-- `compare_combatants`: initiative descending, then dex descending, then
id ascending. -/
def compareCombatants (a b : Combatant) : Int :=
  if b.initiative ≠ a.initiative then b.initiative - a.initiative
  else if b.dex ≠ a.dex then b.dex - a.dex
  else a.id - b.id

def insertC (c : Combatant) : List Combatant → List Combatant
  | [] => [c]
  | d :: ds => if compareCombatants c d ≤ 0 then c :: d :: ds else d :: insertC c ds

/-- Sorting model for `qsort(..., compare_combatants)`: insertion sort.
On rosters with pairwise-distinct ids the comparator is a strict total
order, so the sorted permutation is unique and any correct sort computes
exactly what qsort computes. -/
def sortCList : List Combatant → List Combatant
  | [] => []
  | c :: cs => insertC c (sortCList cs)

/-- `sort_combatants` (with its `count <= 1` early return). -/
def sortCombatants (s : GameState) : GameState :=
  if s.count ≤ 1 then s else { s with combatants := sortCList s.combatants }

/-! ### Undo stack (`save_undo_state` / `undo_last_action`) -/

/-- The snapshot `save_undo_state` builds: `memcpy` of the first `count`
roster slots plus the four scalar fields. -/
def snapOf (s : GameState) : UndoState :=
  { combatants := s.combatants.take s.count.toNat, count := s.count,
    currentTurnId := s.currentTurnId, selectedId := s.selectedId, round := s.round }

/-- `save_undo_state`: when the 10-deep stack is full, shift the oldest
entry out, then push the snapshot at the top. -/
def saveUndoState (s : GameState) : GameState :=
  let st := if s.undoStack.length ≥ 10 then s.undoStack.tail else s.undoStack
  { s with undoStack := st ++ [snapOf s] }

/-- `undo_last_action`: pop the newest snapshot and restore roster, count,
cursor ids and round from it; an empty stack reports and does nothing. -/
def undoLastAction (s : GameState) : GameState :=
  match s.undoStack.getLast? with
  | none => s
  | some p =>
    logAction { s with
      combatants := p.combatants.take p.count.toNat,
      count := p.count, currentTurnId := p.currentTurnId,
      selectedId := p.selectedId, round := p.round,
      undoStack := s.undoStack.dropLast }

/-! ### Roster operations -/

/-- Trailing-whitespace trim used by `add_combatant` (and the base-name
cleanup in `duplicate_combatant`). -/
def trimTrailingSpace (l : List Char) : List Char :=
  (l.reverse.dropWhile charIsSpace).reverse

/-- `add_combatant`.  The name arrives through `getnstr` (at most 31
characters) and is trimmed and checked non-empty; `Max HP` is accepted by
`get_input_int(state, ..., 1, INT_MAX)`, so a value outside that range
means the command ends without mutating (modelled as the identity). -/
def addCombatant (isPlayer : Bool) (nm : List Char) (ini dx mhp : Int)
    (s : GameState) : GameState :=
  if s.count ≥ 50 then s
  else
    let t : Int := if isPlayer then 0 else 1
    let nm1 := trimTrailingSpace (nm.take 31)
    if nm1.isEmpty then s
    else if ¬(1 ≤ mhp ∧ mhp ≤ INT_MAX) then s
    else
      let nid := if s.nextId = INT_MAX then 1 else s.nextId
      let c : Combatant :=
        { id := nid, name := nm1, initiative := ini, dex := dx, maxHp := mhp,
          hp := mhp, ctype := t, conditions := 0,
          conditionDuration := List.replicate 15 0,
          deathSaveSuccesses := 0, deathSaveFailures := 0, isStable := 0, isDead := 0 }
      let s1 := { s with
        combatants := s.combatants ++ [c], count := s.count + 1,
        selectedId := c.id, nextId := nid + 1 }
      let s2 := if s1.count = 1 then { s1 with currentTurnId := c.id } else s1
      let s3 := sortCombatants s2
      let s4 := if s3.round = 1 ∧ s3.count > 0 then
          { s3 with currentTurnId := (getC s3.combatants 0).id }
        else s3
      logAction s4

/-- `remove_combatant` (the snapshot is pushed by the caller; `confirm`
is the y/n answer). -/
def removeCombatant (confirm : Bool) (s : GameState) : GameState :=
  if s.count = 0 then s
  else
    match getIndexById s.combatants s.selectedId with
    | none => s
    | some idx =>
      if ¬confirm then s
      else
        let sa := logAction s
        let sb :=
          if sa.currentTurnId = sa.selectedId then
            let nextIdx := (((idx : Int) + 1) % sa.count).toNat
            let tid := if sa.count > 1 then (getC sa.combatants nextIdx).id else -1
            { sa with currentTurnId := tid }
          else sa
        let sc : GameState := { sb with
          combatants := sb.combatants.eraseIdx idx, count := sb.count - 1 }
        if sc.count > 0 then
          let idx2 := if (idx : Int) ≥ sc.count then sc.count - 1 else (idx : Int)
          { sc with selectedId := (getC sc.combatants idx2.toNat).id }
        else
          { sc with selectedId := -1, currentTurnId := -1, round := 1 }

/-- `reset_death_saves`. -/
def resetDeathSaves (c : Combatant) : Combatant :=
  { c with deathSaveSuccesses := 0, deathSaveFailures := 0, isStable := 0 }

/-- `handle_damage_at_zero_hp` applied to the combatant at `idx`:
+1 failure (or +2 on a critical), break stability, die at 3+ failures. -/
def handleDamageAtZeroHp (isCrit : Bool) (idx : Nat) (s : GameState) : GameState :=
  let c := getC s.combatants idx
  if c.ctype ≠ 0 ∨ c.hp > 0 ∨ c.isDead ≠ 0 then s
  else
    let c1 := { c with deathSaveFailures :=
      c.deathSaveFailures + (if isCrit then 2 else 1) }
    let s1 := logAction { s with combatants := setC s.combatants idx c1 }
    let c2 := if c1.isStable ≠ 0 then { c1 with isStable := 0 } else c1
    let s2 := if c1.isStable ≠ 0 then
        logAction { s1 with combatants := setC s1.combatants idx c2 }
      else s1
    if c2.deathSaveFailures ≥ 3 then
      logAction { s2 with combatants := setC s2.combatants idx { c2 with isDead := 1 } }
    else s2

/-- `roll_death_save` applied to the combatant at `idx`; `r` is the raw
`rand()` value, the die result is `r % 20 + 1`.  Guards: players only, and
only while at 0 HP, not stable, not dead. -/
def rollDeathSaveAt (r : Nat) (idx : Nat) (s : GameState) : GameState :=
  let c := getC s.combatants idx
  if c.ctype ≠ 0 then s
  else if c.hp > 0 ∨ c.isStable ≠ 0 ∨ c.isDead ≠ 0 then s
  else
    let roll := r % 20 + 1
    if roll = 20 then
      let c20 := resetDeathSaves { c with hp := 1, conditions := c.conditions &&& 57343 }
      logAction { s with combatants := setC s.combatants idx c20 }
    else if roll = 1 then
      let c1 := { c with deathSaveFailures := c.deathSaveFailures + 2 }
      let s1 := logAction { s with combatants := setC s.combatants idx c1 }
      if c1.deathSaveFailures ≥ 3 then
        logAction { s1 with combatants := setC s1.combatants idx { c1 with isDead := 1 } }
      else s1
    else if roll ≥ 10 then
      let c1 := { c with deathSaveSuccesses := c.deathSaveSuccesses + 1 }
      let s1 := logAction { s with combatants := setC s.combatants idx c1 }
      if c1.deathSaveSuccesses ≥ 3 then
        logAction { s1 with combatants := setC s1.combatants idx { c1 with isStable := 1 } }
      else s1
    else
      let c1 := { c with deathSaveFailures := c.deathSaveFailures + 1 }
      let s1 := logAction { s with combatants := setC s.combatants idx c1 }
      if c1.deathSaveFailures ≥ 3 then
        logAction { s1 with combatants := setC s1.combatants idx { c1 with isDead := 1 } }
      else s1

/-- `roll_death_save(state, NULL)`: the 'X' key rolls for the selected
combatant. -/
def rollDeathSaveSelected (r : Nat) (s : GameState) : GameState :=
  match getIndexById s.combatants s.selectedId with
  | none => s
  | some idx => rollDeathSaveAt r idx s

/-- `stabilize_combatant`: players only, at 0 HP, not dead, not already
stable; resets the counters and sets `is_stable`. -/
def stabilizeCombatant (s : GameState) : GameState :=
  match getIndexById s.combatants s.selectedId with
  | none => s
  | some idx =>
    let c := getC s.combatants idx
    if c.ctype ≠ 0 then s
    else if c.hp > 0 then s
    else if c.isDead ≠ 0 then s
    else if c.isStable ≠ 0 then s
    else
      let c1 := { resetDeathSaves c with isStable := 1 }
      logAction { s with combatants := setC s.combatants idx c1 }

/-- `edit_hp` on the selected combatant: instant-death check, clamp to
`[0, maxHp]`, death-save failures for damage taken at 0 HP (`crit` is the
user's answer to the critical-hit prompt), and the player
unconscious/wake-up transitions. -/
def editHp (change : Int) (crit : Bool) (s : GameState) : GameState :=
  match getIndexById s.combatants s.selectedId with
  | none => s
  | some idx =>
    let c := getC s.combatants idx
    let oldHp := c.hp
    let damage := if change < 0 then -change else 0
    if damage > 0 ∧ c.hp > 0 ∧ c.hp - damage ≤ 0 ∧ damage - c.hp ≥ c.maxHp then
      let cX := resetDeathSaves { c with
        hp := 0, isDead := 1, conditions := c.conditions ||| 8192 }
      logAction { s with combatants := setC s.combatants idx cX }
    else
      let hp1 := c.hp + change
      let hp2 := if hp1 > c.maxHp then c.maxHp else hp1
      let hp3 := if hp2 < 0 then 0 else hp2
      let c1 := { c with hp := hp3 }
      let s1 := { s with combatants := setC s.combatants idx c1 }
      let s2 :=
        if damage > 0 ∧ oldHp ≤ 0 ∧ c1.ctype = 0 ∧ c1.isDead = 0 then
          handleDamageAtZeroHp (if c1.hp = 0 then crit else false) idx s1
        else s1
      let s3 := if change ≠ 0 then logAction s2 else s2
      let c2 := getC s3.combatants idx
      if c2.ctype = 0 then
        if c2.hp = 0 ∧ oldHp > 0 then
          if c2.conditions &&& 8192 = 0 then
            let c3 := resetDeathSaves { c2 with conditions := c2.conditions ||| 8192 }
            logAction { s3 with combatants := setC s3.combatants idx c3 }
          else s3
        else if c2.hp > 0 ∧ oldHp ≤ 0 then
          if c2.conditions &&& 8192 ≠ 0 then
            let c3 := { resetDeathSaves { c2 with conditions := c2.conditions &&& 57343 } with isDead := 0 }
            logAction { s3 with combatants := setC s3.combatants idx c3 }
          else s3
        else s3
      else s3

/-- `reroll_initiative` on the selected combatant. -/
def rerollInitiative (v : Int) (s : GameState) : GameState :=
  match getIndexById s.combatants s.selectedId with
  | none => s
  | some idx =>
    let c := getC s.combatants idx
    let s1 := { s with combatants := setC s.combatants idx { c with initiative := v } }
    let s2 := sortCombatants s1
    let s3 := if s2.round = 1 ∧ s2.count > 0 then
        { s2 with currentTurnId := (getC s2.combatants 0).id }
      else s2
    logAction s3

/-- `move_selection`. -/
def moveSelection (dir : Int) (s : GameState) : GameState :=
  match getIndexById s.combatants s.selectedId with
  | none => if s.count > 0 then { s with selectedId := (getC s.combatants 0).id } else s
  | some idx =>
    let idx2 := (((idx : Int) + dir + s.count) % s.count).toNat
    { s with selectedId := (getC s.combatants idx2).id }

/-! ### Turn order -/

/-- Per-combatant part of `decrement_condition_durations`: walk the 15
duration slots, decrement the positive ones and clear the condition bit
when one reaches 0; also counts the expiries (each appends a log entry). -/
def decDurs : Nat → Nat → List Int → Nat × List Int × Nat
  | conds, _, [] => (conds, [], 0)
  | conds, j, d :: rest =>
    if d > 0 then
      let d1 := d - 1
      let conds1 := if d1 = 0 then conds &&& (65535 ^^^ (1 <<< j)) else conds
      let r := decDurs conds1 (j + 1) rest
      (r.1, d1 :: r.2.1, r.2.2 + (if d1 = 0 then 1 else 0))
    else
      let r := decDurs conds (j + 1) rest
      (r.1, d :: r.2.1, r.2.2)

def decrementCombatant (c : Combatant) : Combatant × Nat :=
  let r := decDurs c.conditions 0 c.conditionDuration
  ({ c with conditions := r.1, conditionDuration := r.2.1 }, r.2.2)

/-- `decrement_condition_durations` over the whole roster. -/
def decrementConditionDurations (s : GameState) : GameState :=
  { s with
    combatants := s.combatants.map (fun c => (decrementCombatant c).1),
    logCount := s.logCount + (s.combatants.map (fun c => (decrementCombatant c).2)).sum }

/-- Shared tail of `next_turn`: point the cursor at slot `idx`, log the
turn, and auto-roll a death save for a dying player. -/
def nextTurnFinish (r : Nat) (idx : Nat) (s : GameState) : GameState :=
  let c := getC s.combatants idx
  let s2 := logAction { s with currentTurnId := c.id, selectedId := c.id }
  if c.ctype = 0 ∧ c.hp ≤ 0 ∧ c.isStable = 0 ∧ c.isDead = 0 then
    rollDeathSaveAt r idx s2
  else s2

/-- `next_turn`: advance the cursor; wrapping past the end starts a new
round (round counter, duration decrement, round banner in the log). -/
def nextTurn (r : Nat) (s : GameState) : GameState :=
  if s.count = 0 then s
  else
    let idx : Int :=
      match getIndexById s.combatants s.currentTurnId with
      | none => 0
      | some j => (j : Int) + 1
    if idx ≥ s.count then
      nextTurnFinish r 0 (logAction (decrementConditionDurations { s with round := s.round + 1 }))
    else nextTurnFinish r idx.toNat s

/-- Shared tail of `prev_turn`. -/
def prevTurnFinish (idx : Nat) (s : GameState) : GameState :=
  let c := getC s.combatants idx
  logAction { s with currentTurnId := c.id, selectedId := c.id }

/-- `prev_turn`: step the cursor backwards; wrapping before slot 0 moves
to the last slot and decrements the round only while `round > 1`. -/
def prevTurn (s : GameState) : GameState :=
  if s.count = 0 then s
  else
    let idx : Int :=
      match getIndexById s.combatants s.currentTurnId with
      | none => 0
      | some j => (j : Int) - 1
    if idx < 0 then
      let s1 := if s.round > 1 then logAction { s with round := s.round - 1 } else s
      prevTurnFinish (s1.count - 1).toNat s1
    else prevTurnFinish idx.toNat s

/-! ### Condition menu (`toggle_condition` / `handle_condition_menu_input`)

Opening the menu pushes one undo snapshot; every toggle / set-duration
keypress inside the same menu session then mutates without further
snapshots.  A whole menu session is therefore modelled as one command
carrying the list of menu operations. -/

inductive CondOp where
  | toggle (i : Fin 15)
  | setDur (i : Fin 15) (d : Int)
deriving DecidableEq

/-- One keypress inside the condition menu, applied to the combatant with
id `tid` (`condition_menu_target_id`). -/
def applyCondOp (tid : Int) (s : GameState) (op : CondOp) : GameState :=
  match getIndexById s.combatants tid with
  | none => s
  | some idx =>
    let c := getC s.combatants idx
    match op with
    | .toggle i =>
      let mask := 1 <<< (i : Nat)
      let c1 := { c with conditions := c.conditions ^^^ mask }
      if c.conditions &&& mask = 0 then
        logAction { s with combatants := setC s.combatants idx c1 }
      else
        let c2 := { c1 with conditionDuration := c1.conditionDuration.set i 0 }
        logAction { s with combatants := setC s.combatants idx c2 }
    | .setDur i d =>
      if c.conditions &&& (1 <<< (i : Nat)) ≠ 0 then
        if 0 ≤ d ∧ d ≤ INT_MAX then
          let c1 := { c with conditionDuration := c.conditionDuration.set i d }
          logAction { s with combatants := setC s.combatants idx c1 }
        else s
      else s

/-- A full condition-menu session: `toggle_condition` validates the
selection, pushes one snapshot, and then the menu ops run. -/
def toggleConditionSession (ops : List CondOp) (s : GameState) : GameState :=
  if s.count = 0 then s
  else
    match getIndexById s.combatants s.selectedId with
    | none => s
    | some _ => ops.foldl (applyCondOp s.selectedId) (saveUndoState s)

/-! ### Duplicate (`duplicate_combatant`) -/

/-- The suffix check `duplicate_combatant` runs against every existing
name: the name must extend `base` by a space and a `strtol`-parseable
positive number with nothing after it. -/
def scanSuffix (base nm : List Char) : Option Int :=
  let bl := base.length
  if nm.length > bl ∧ nm.take bl = base ∧ nm.getD bl ' ' = ' ' then
    match readIntScan (nm.drop (bl + 1)) with
    | some (num, rest) => if rest = [] ∧ 0 < num ∧ num ≤ INT_MAX then some num else none
    | none => none
  else none

/-- `snprintf(name, 32, "%.*s %d", 20, base, n)`. -/
def suffixName (base : List Char) (n : Int) : List Char :=
  (base.take 20 ++ ' ' :: intChars n).take 31

/-- The copy loop of `duplicate_combatant`: `k` copies remaining, `i`
copies already made; each copy gets a fresh id, the next suffix number, a
rerolled initiative `rand() % 20 + 1 + dex` and a fresh-spawn stat reset. -/
def dupLoop (base : List Char) (startNum : Int) (src : Combatant) (rolls : List Nat) :
    Nat → Nat → GameState → GameState
  | 0, _, s => s
  | k + 1, i, s =>
    if s.count ≥ 50 then s
    else
      let nid := if s.nextId = INT_MAX then 1 else s.nextId
      let c : Combatant := { src with
        id := nid,
        name := suffixName base (startNum + (i : Int)),
        initiative := ((rolls.getD i 0 % 20 + 1 : Nat) : Int) + src.dex,
        hp := src.maxHp,
        conditions := 0,
        conditionDuration := List.replicate 15 0,
        deathSaveSuccesses := 0, deathSaveFailures := 0, isStable := 0, isDead := 0 }
      dupLoop base startNum src rolls k (i + 1) { s with
        combatants := s.combatants ++ [c], count := s.count + 1, nextId := nid + 1 }

/-- `duplicate_combatant`: derive the base name (strip a trailing digit
run and at most one space before it, right-trim, cap at 20 characters),
find the highest existing `base N` suffix, rename the original to
`base 1` when it carries no suffix, then append the copies and re-sort.
`numCopies` passed `get_input_int(state, ..., 1, max_copies)`. -/
def duplicateCombatant (numCopies : Nat) (rolls : List Nat) (s : GameState) : GameState :=
  if s.count = 0 then s
  else
    match getIndexById s.combatants s.selectedId with
    | none => s
    | some idx =>
      let maxCopies := 50 - s.count
      if maxCopies ≤ 0 then s
      else if ¬(1 ≤ (numCopies : Int) ∧ (numCopies : Int) ≤ maxCopies) then s
      else
        let src := getC s.combatants idx
        let nm := src.name
        let len := nm.length
        let trailing := (nm.reverse.takeWhile charIsDigit).length
        let tns := len - trailing
        let base0 :=
          if tns < len then
            let baseEnd := if 0 < tns ∧ charIsSpace (nm.getD (tns - 1) ' ') then tns - 1 else tns
            nm.take baseEnd
          else nm.take 31
        let base1 := trimTrailingSpace base0
        let base := base1.take 20
        let highest := (s.combatants.map (fun c => (scanSuffix base c.name).getD 0)).foldl max 0
        let origHasNum := (scanSuffix base src.name).isSome
        let startNum : Int :=
          if origHasNum then highest + 1
          else if highest > 0 then highest + 1 else 2
        let s1 :=
          if origHasNum then s
          else { s with combatants := setC s.combatants idx { src with name := suffixName base 1 } }
        let src1 := getC s1.combatants idx
        let s2 := dupLoop base startNum src1 rolls numCopies 0 s1
        let s3 := sortCombatants s2
        let s4 :=
          if s3.count > 0 then
            { s3 with selectedId := (getC s3.combatants (s3.count - 1).toNat).id }
          else s3
        logAction s4

/-! ### Persistence (`save_state` / `load_state`) -/

/-- Header line: `round|nextId|count|currentTurnId|selectedId`. -/
def saveHeader (s : GameState) : List Char :=
  joinBar [intChars s.round, intChars s.nextId, intChars s.count,
           intChars s.currentTurnId, intChars s.selectedId]

/-- One combatant line:
`id|name|type|initiative|dex|maxHp|hp|conditions|dss|dsf|isStable|isDead|dur_0|...|dur_14`. -/
def saveLine (c : Combatant) : List Char :=
  joinBar ([intChars c.id, c.name, intChars c.ctype, intChars c.initiative,
            intChars c.dex, intChars c.maxHp, intChars c.hp,
            intChars (c.conditions : Int), intChars c.deathSaveSuccesses,
            intChars c.deathSaveFailures, intChars c.isStable, intChars c.isDead]
           ++ c.conditionDuration.map intChars)

/-- `save_state` as the file it writes (the state itself is unchanged by
saving); one line per live roster slot after the header. -/
def saveFile (s : GameState) : List (List Char) :=
  saveHeader s :: (s.combatants.take s.count.toNat).map saveLine

/-- Parse one combatant record from its strtok token list.  The first 8
fields are required (a missing or malformed one skips the whole record);
the death-save fields and the 15 durations are optional, defaulting to 0
(backward compatibility with old save files). -/
def loadCombatant (tks : List (List Char)) : Option Combatant :=
  match tks with
  | t0 :: t1 :: t2 :: t3 :: t4 :: t5 :: t6 :: t7 :: rest =>
    match parseIntSafe t0, parseIntSafe t2, parseIntSafe t3, parseIntSafe t4,
          parseIntSafe t5, parseIntSafe t6, parseIntSafe t7 with
    | some vid, some vty, some vin, some vdx, some vmh, some vhp, some vcd =>
      let optField := fun (j : Nat) =>
        match rest.get? j with
        | some t => (parseIntSafe t).getD 0
        | none => 0
      some { id := vid, name := t1.take 31, ctype := vty, initiative := vin,
             dex := vdx, maxHp := vmh, hp := vhp,
             conditions := (vcd % 65536).toNat,
             conditionDuration := (List.range 15).map (fun j => optField (4 + j)),
             deathSaveSuccesses := optField 0, deathSaveFailures := optField 1,
             isStable := optField 2, isDead := optField 3 }
    | _, _, _, _, _, _, _ => none
  | _ => none

/-- The record-reading loop of `load_state`: read lines while fewer than
`MAX_COMBATANTS` records have been accepted; malformed records are skipped
with a warning and parsing continues. -/
def loadRecords : List (List Char) → Nat → List Combatant
  | [], _ => []
  | l :: ls, idx =>
    if idx < 50 then
      match loadCombatant (strtokSplit l) with
      | some c => c :: loadRecords ls (idx + 1)
      | none => loadRecords ls idx
    else []

/-- `load_state`.  `confirm` is the "Loading will wipe current state"
answer (asked only when the roster is non-empty); `file` is `none` when
the save file cannot be opened.  Note the order of events the C code
performs: the log, undo stack and roster array are cleared *before* the
header is parsed, and the error returns for a malformed header or an
out-of-range count leave that partial state (and any header fields sscanf
had already assigned) in place. -/
def loadState (confirm : Bool) (file : Option (List (List Char))) (s : GameState) : GameState :=
  if s.count > 0 ∧ ¬confirm then s
  else
    match file with
    | none => s
    | some lines =>
      let s0 := { s with logCount := 0, undoStack := [], combatants := [] }
      match lines with
      | [] => s0
      | header :: rest =>
        let vs := scanfInts 5 header
        let s1 := { s0 with
          round := vs.getD 0 s0.round,
          nextId := vs.getD 1 s0.nextId,
          count := vs.getD 2 s0.count,
          currentTurnId := vs.getD 3 s0.currentTurnId,
          selectedId := vs.getD 4 s0.selectedId }
        if vs.length ≠ 5 then s1
        else if s1.count < 0 ∨ s1.count > 50 then s1
        else
          let s2 := if s1.round < 1 then { s1 with round := 1 } else s1
          let ros := loadRecords rest 0
          let s3 := { s2 with combatants := ros, count := (ros.length : Int) }
          let maxId := ros.foldl (fun m c => if c.id > m then c.id else m) 0
          let nid := maxId + 1
          let s4 := { s3 with nextId := if nid ≤ 0 ∨ nid = INT_MAX then 1 else nid }
          logAction (sortCombatants s4)

/-! ### The command surface (`main`'s key dispatch) -/

inductive Command where
  | add (isPlayer : Bool) (nm : List Char) (ini dx mhp : Int)
  | snapOnly
  | remove (confirm : Bool)
  | editHp (change : Int) (crit : Bool)
  | reroll (v : Int)
  | condSession (ops : List CondOp)
  | next (r : Nat)
  | prev
  | save
  | load (confirm : Bool) (file : Option (List (List Char)))
  | exportLog
  | undo
  | deathSave (r : Nat)
  | stabilize
  | duplicate (n : Nat) (rolls : List Nat)
  | moveSel (dir : Int)
deriving DecidableEq

def Command.isLoad : Command → Bool
  | .load _ _ => true
  | _ => false

/-- The `main` keypress dispatch: the `state.count > 0` guards and the
pre-mutation `save_undo_state` pushes are exactly the ones in the C
switch.  `snapOnly` models a snapshotting command whose interactive input
is then cancelled (the snapshot stays, nothing else changes); `save`
writes `saveFile` externally and leaves the state unchanged; `exportLog`
models a successful export, which clears the log. -/
def execCommand : Command → GameState → GameState
  | .add p nm i d m, s => addCombatant p nm i d m (saveUndoState s)
  | .snapOnly, s => saveUndoState s
  | .remove cf, s => if s.count > 0 then removeCombatant cf (saveUndoState s) else s
  | .editHp ch cr, s => if s.count > 0 then editHp ch cr (saveUndoState s) else s
  | .reroll v, s => if s.count > 0 then rerollInitiative v (saveUndoState s) else s
  | .condSession ops, s => if s.count > 0 then toggleConditionSession ops s else s
  | .next r, s => if s.count > 0 then nextTurn r (saveUndoState s) else s
  | .prev, s => if s.count > 0 then prevTurn (saveUndoState s) else s
  | .save, s => s
  | .load cf f, s => loadState cf f s
  | .exportLog, s => if s.logCount > 0 then { s with logCount := 0 } else s
  | .undo, s => undoLastAction s
  | .deathSave r, s => if s.count > 0 then rollDeathSaveSelected r (saveUndoState s) else s
  | .stabilize, s => if s.count > 0 then stabilizeCombatant (saveUndoState s) else s
  | .duplicate n rolls, s => if s.count > 0 then duplicateCombatant n rolls (saveUndoState s) else s
  | .moveSel d, s => if s.count > 0 then moveSelection d s else s

def execList (cmds : List Command) (s : GameState) : GameState :=
  cmds.foldl (fun st c => execCommand c st) s

/-- States reachable from the start state by commands other than `load`
(load replaces the whole state from an external file and is treated
separately by the persistence claims). -/
inductive ReachableNL : GameState → Prop where
  | init : ReachableNL initState
  | step (s : GameState) (c : Command) (h : c.isLoad = false) (hs : ReachableNL s) :
      ReachableNL (execCommand c s)

/-- The commands whose `main`-loop branch reaches `save_undo_state` on the
given state: `a`/`A` always push; the guarded branches push when the
roster is non-empty; the condition menu additionally requires the
selected id to resolve (`toggle_condition` validates before pushing).
`save`, `load`, `export`, `undo` and the arrow keys never push. -/
def pushesSnapshot : Command → GameState → Prop
  | .add _ _ _ _ _, _ => True
  | .snapOnly, _ => True
  | .remove _, s => s.count > 0
  | .editHp _ _, s => s.count > 0
  | .reroll _, s => s.count > 0
  | .condSession _, s => s.count > 0 ∧ (getIndexById s.combatants s.selectedId).isSome
  | .next _, s => s.count > 0
  | .prev, s => s.count > 0
  | .save, _ => False
  | .load _ _, _ => False
  | .exportLog, _ => False
  | .undo, _ => False
  | .deathSave _, s => s.count > 0
  | .stabilize, s => s.count > 0
  | .duplicate _ _, s => s.count > 0
  | .moveSel _, s => False

/-- Invariant that tracks the turn cursor through repeated `next_turn`
calls against a reference roster `l0`: after `p` steps from slot 0 the
live roster still carries the ids of `l0`, the count equals its length,
the cursor sits on the id of slot `p mod length`, and the round has
grown by the number of completed wraps `p / length`. -/
def TurnInv (l0 : List Combatant) (r0 : Int) (p : Nat) (t : GameState) : Prop :=
  t.combatants.map Combatant.id = l0.map Combatant.id ∧
  t.count = (l0.length : Int) ∧
  t.currentTurnId = (getC l0 (p % l0.length)).id ∧
  t.round = r0 + ((p / l0.length : Nat) : Int)

/-- Per-combatant invariant maintained by every command except load: HP
clamped to `[0, maxHp]` with `maxHp ≥ 1`, death-save counters in the
ranges the tracker can produce, and the finer accounting that makes the
bounds inductive: an alive combatant holds at most 2 failures (reaching 3
always sets `is_dead` in the same operation), an alive unstable one at
most `2 + failures` successes, an alive stable one at most
`3 + failures` (every stability break adds a failure, so successes top
out at `3 + 2 = 5` and failures at `2 + 2 = 4`). -/
def CombInv (c : Combatant) : Prop :=
  0 ≤ c.hp ∧ c.hp ≤ c.maxHp ∧ 1 ≤ c.maxHp ∧
  0 ≤ c.deathSaveSuccesses ∧ c.deathSaveSuccesses ≤ 5 ∧
  0 ≤ c.deathSaveFailures ∧ c.deathSaveFailures ≤ 4 ∧
  (c.isDead = 0 → c.deathSaveFailures ≤ 2) ∧
  (c.isDead = 0 → c.isStable = 0 → c.deathSaveSuccesses ≤ 2 + c.deathSaveFailures) ∧
  (c.isDead = 0 → c.isStable ≠ 0 → c.deathSaveSuccesses ≤ 3 + c.deathSaveFailures)

instance (c : Combatant) : Decidable (CombInv c) := by unfold CombInv; infer_instance

/-- State-level invariant: every live roster entry and every entry of
every undo snapshot satisfies `CombInv`. -/
def StInv (s : GameState) : Prop :=
  (∀ c ∈ s.combatants, CombInv c) ∧
  ∀ u ∈ s.undoStack, ∀ c ∈ u.combatants, CombInv c

/-! ### Concrete example states used by witnesses and counterexamples -/

/-- A fresh full-health combatant, as `add_combatant` builds one. -/
def mkComb (i : Int) (nm : List Char) (t ini dx mh hp : Int) : Combatant :=
  { id := i, name := nm, initiative := ini, dex := dx, maxHp := mh, hp := hp,
    ctype := t, conditions := 0, conditionDuration := List.replicate 15 0,
    deathSaveSuccesses := 0, deathSaveFailures := 0, isStable := 0, isDead := 0 }

/-- One-player state whose `nextId` (5) is larger than `max id + 1` (2) —
reachable by adding four combatants and deleting three of them. -/
def exGapState : GameState :=
  { combatants := [mkComb 1 ['A'] 0 10 0 5 5], count := 1, currentTurnId := 1,
    selectedId := 1, round := 1, nextId := 5, logCount := 0, undoStack := [] }

/-- A populated state about to attempt a load: one combatant, three log
entries, one undo snapshot, round 7. -/
def exPriorState : GameState :=
  { combatants := [mkComb 1 ['A'] 0 10 0 5 5], count := 1, currentTurnId := 1,
    selectedId := 1, round := 7, nextId := 2, logCount := 3,
    undoStack := [{ combatants := [], count := 0, currentTurnId := -1,
                    selectedId := -1, round := 1 }] }

/-- A save file whose header declares `count = 100` (out of range: the
maximum is 50); all other header fields parse fine. -/
def exBadCountFile : List (List Char) := [String.toList "1|1|100|1|1"]

/-- A save file whose single record carries `maxHp = 5` but `hp = 99`. -/
def exBadHpFile : List (List Char) :=
  [String.toList "1|1|1|1|1", String.toList "1|A|0|0|0|5|99|0"]

/-- A dead player at 0 HP with the Unconscious condition set (exactly how
instant death or a third failed death save leaves a downed player). -/
def exDeadState : GameState :=
  { combatants := [{ mkComb 1 ['A'] 0 10 0 10 0 with isDead := 1, conditions := 8192 }],
    count := 1, currentTurnId := 1, selectedId := 1, round := 1, nextId := 2,
    logCount := 0, undoStack := [] }

/-- A lone combatant named "Goblin", selected. -/
def exGoblinState : GameState :=
  { combatants := [mkComb 1 (String.toList "Goblin") 1 10 0 7 7], count := 1,
    currentTurnId := 1, selectedId := 1, round := 1, nextId := 2,
    logCount := 0, undoStack := [] }

/-- "Goblin" (selected) next to a pre-existing "Goblin 1". -/
def exGoblinPairState : GameState :=
  { combatants := [mkComb 1 (String.toList "Goblin") 1 10 0 7 7,
                   mkComb 2 (String.toList "Goblin 1") 1 9 0 7 7],
    count := 2, currentTurnId := 1, selectedId := 1, round := 1, nextId := 3,
    logCount := 0, undoStack := [] }

/-- Command sequence: add a player with 5 max HP, drop them to 0 HP, roll
two ordinary failures (raw rand 2, die roll 3), then a natural 1 (raw
rand 0, die roll 1, worth two failures). -/
def exFourFailCmds : List Command :=
  [Command.add true ['A'] 10 0 5, Command.editHp (-5) false,
   Command.deathSave 2, Command.deathSave 2, Command.deathSave 0]

/-- A save file holding one enemy "B" (id 2). -/
def exFileB : List (List Char) :=
  [String.toList "1|3|1|2|2", String.toList "2|B|1|5|0|7|7|0"]

/-- Add player "A", then load `exFileB`, then undo. -/
def exLoadUndoCmds : List Command :=
  [Command.add true ['A'] 10 0 5, Command.load true (some exFileB), Command.undo]

/-- A lone enemy at 3/10 HP, selected. -/
def exEnemyState : GameState :=
  { combatants := [mkComb 1 ['E'] 1 10 0 10 3], count := 1, currentTurnId := 1,
    selectedId := 1, round := 1, nextId := 2, logCount := 0, undoStack := [] }

/-! ### Validity of in-memory states for the persistence round trip -/

/-- Fits a 32-bit `int`. -/
def IntRange (v : Int) : Prop := INT_MIN ≤ v ∧ v ≤ INT_MAX

instance (v : Int) : Decidable (IntRange v) := by unfold IntRange; infer_instance

/-- A combatant the engine can have built: non-empty name of at most 31
characters containing no field separator and no newline, all numeric
fields inside `int` range, a 16-bit condition mask, the fixed 15 duration
slots, and an id in `[1, INT_MAX - 2]` (fresh ids are at least 1 and the
id counter wraps before reaching `INT_MAX`). -/
def ValidComb (c : Combatant) : Prop :=
  c.name ≠ [] ∧ c.name.length ≤ 31 ∧ (∀ ch ∈ c.name, ch ≠ '|' ∧ ch ≠ '\n') ∧
  1 ≤ c.id ∧ c.id ≤ 2147483645 ∧
  IntRange c.ctype ∧ IntRange c.initiative ∧ IntRange c.dex ∧
  IntRange c.maxHp ∧ IntRange c.hp ∧ c.conditions < 65536 ∧
  IntRange c.deathSaveSuccesses ∧ IntRange c.deathSaveFailures ∧
  IntRange c.isStable ∧ IntRange c.isDead ∧
  c.conditionDuration.length = 15 ∧ (∀ d ∈ c.conditionDuration, IntRange d)

instance (c : Combatant) : Decidable (ValidComb c) := by unfold ValidComb; infer_instance

/-- A whole in-memory state `save_state` can be asked to persist: count
agrees with the roster length and stays within the 50-slot capacity, the
round is at least 1, the scalar header fields are `int`s, the roster is
already in sorted order (every roster-changing operation re-sorts), and
every combatant is valid. -/
def ValidSave (s : GameState) : Prop :=
  s.count = (s.combatants.length : Int) ∧ s.combatants.length ≤ 50 ∧ 1 ≤ s.round ∧
  IntRange s.round ∧ IntRange s.nextId ∧ IntRange s.currentTurnId ∧
  IntRange s.selectedId ∧ sortCList s.combatants = s.combatants ∧
  ∀ c ∈ s.combatants, ValidComb c

instance (s : GameState) : Decidable (ValidSave s) := by unfold ValidSave; infer_instance

/-- A valid one-player state whose `nextId` already equals
`max id + 1`. -/
def exRoundTripState : GameState :=
  { combatants := [mkComb 1 ['A'] 0 10 0 5 5], count := 1, currentTurnId := 1,
    selectedId := 1, round := 1, nextId := 2, logCount := 0, undoStack := [] }

/-! ### Basic lemmas about the character-level models -/

theorem digitChar_isDigit {d : Nat} (h : d < 10) : charIsDigit (digitChar d) = true := by
  interval_cases d <;> decide

theorem charDigit_digitChar {d : Nat} (h : d < 10) : charDigit (digitChar d) = d := by
  interval_cases d <;> decide

theorem digitChar_not_space {d : Nat} (h : d < 10) : charIsSpace (digitChar d) = false := by
  interval_cases d <;> decide

theorem digitChar_ne_bar {d : Nat} (h : d < 10) : digitChar d ≠ '|' := by
  interval_cases d <;> decide

theorem digitChar_ne_minus {d : Nat} (h : d < 10) : digitChar d ≠ '-' := by
  interval_cases d <;> decide

theorem digitChar_ne_plus {d : Nat} (h : d < 10) : digitChar d ≠ '+' := by
  interval_cases d <;> decide

theorem natCharsF_irrel : ∀ f g n : Nat, n < f → n < g → natCharsF f n = natCharsF g n := by
  intro f
  induction f with
  | zero => intro g n hf; omega
  | succ f ih =>
    intro g n hf hg
    cases g with
    | zero => omega
    | succ g =>
      simp only [natCharsF]
      by_cases h10 : n < 10
      · simp [h10]
      · simp only [h10, if_false]
        rw [ih g (n / 10) (by omega) (by omega)]

theorem natChars_def (n : Nat) :
    natChars n = if n < 10 then [digitChar n] else natChars (n / 10) ++ [digitChar (n % 10)] := by
  unfold natChars
  rw [natCharsF]
  by_cases h10 : n < 10
  · simp [h10]
  · simp only [h10, if_false]
    rw [natCharsF_irrel n (n / 10 + 1) (n / 10) (by omega) (by omega)]

theorem natChars_ne_nil (n : Nat) : natChars n ≠ [] := by
  rw [natChars_def]
  by_cases h10 : n < 10 <;> simp [h10]

theorem natChars_all_digits (n : Nat) : ∀ c ∈ natChars n, charIsDigit c = true := by
  induction n using Nat.strong_induction_on with
  | _ n ih =>
    rw [natChars_def]
    by_cases h10 : n < 10
    · simp only [h10, if_true, List.mem_singleton]
      rintro c rfl
      exact digitChar_isDigit h10
    · simp only [h10, if_false, List.mem_append, List.mem_singleton]
      rintro c (hc | rfl)
      · exact ih (n / 10) (by omega) c hc
      · exact digitChar_isDigit (by omega)

theorem readDigits_natChars (n : Nat) :
    ∀ acc rest, readDigits (natChars n ++ rest) acc =
      readDigits rest (acc * 10 ^ (natChars n).length + n) := by
  induction n using Nat.strong_induction_on with
  | _ n ih =>
    intro acc rest
    rw [natChars_def]
    by_cases h10 : n < 10
    · simp only [h10, if_true, List.singleton_append, readDigits,
        digitChar_isDigit h10, if_true, charDigit_digitChar h10, List.length_singleton,
        pow_one]
    · simp only [h10, if_false, List.append_assoc, List.singleton_append]
      rw [ih (n / 10) (by omega) acc (digitChar (n % 10) :: rest)]
      simp only [readDigits, digitChar_isDigit (show n % 10 < 10 by omega), if_true,
        charDigit_digitChar (show n % 10 < 10 by omega), List.length_append,
        List.length_singleton]
      congr 1
      have hmod := Nat.div_add_mod n 10
      ring_nf
      omega

theorem readDigits_stop {rest : List Char} (h : HeadNotDigit rest) (acc : Nat) :
    readDigits rest acc = (acc, rest) := by
  cases rest with
  | nil => rfl
  | cons c cs => simp [readDigits, HeadNotDigit] at h ⊢; simp [h]

theorem readDigits_natChars_stop (n : Nat) {rest : List Char} (h : HeadNotDigit rest) :
    readDigits (natChars n ++ rest) 0 = (n, rest) := by
  rw [readDigits_natChars, readDigits_stop h]
  simp

theorem isDigit_not_space {c : Char} (h : charIsDigit c = true) : charIsSpace c = false := by
  simp only [charIsDigit, Bool.and_eq_true, decide_eq_true_eq] at h
  simp only [charIsSpace, Bool.or_eq_false_iff, Bool.and_eq_false_iff, decide_eq_false_iff_not]
  omega

theorem isDigit_ne_minus {c : Char} (h : charIsDigit c = true) : c ≠ '-' := by
  rintro rfl; exact absurd h (by decide)

theorem isDigit_ne_plus {c : Char} (h : charIsDigit c = true) : c ≠ '+' := by
  rintro rfl; exact absurd h (by decide)

theorem isDigit_ne_bar {c : Char} (h : charIsDigit c = true) : c ≠ '|' := by
  rintro rfl; exact absurd h (by decide)

theorem natChars_exists_cons (n : Nat) :
    ∃ hd tl, natChars n = hd :: tl ∧ charIsDigit hd = true := by
  cases h : natChars n with
  | nil => exact absurd h (natChars_ne_nil n)
  | cons hd tl =>
    refine ⟨hd, tl, rfl, ?_⟩
    exact natChars_all_digits n hd (h ▸ List.mem_cons_self hd tl)


theorem headNotDigit_nil : HeadNotDigit [] := trivial

theorem headNotDigit_cons {c : Char} {cs : List Char} (h : charIsDigit c = false) :
    HeadNotDigit (c :: cs) := h

theorem readNum_natChars (neg : Bool) (n : Nat) {rest : List Char} (h : HeadNotDigit rest) :
    readNum neg (natChars n ++ rest) =
      some (if neg then -(n : Int) else (n : Int), rest) := by
  obtain ⟨hd, tl, hnat, hdig⟩ := natChars_exists_cons n
  rw [hnat, List.cons_append, readNum]
  simp only [hdig, if_true]
  rw [← List.cons_append, ← hnat, readDigits_natChars_stop n h]

theorem readNum_natChars_true (n : Nat) {rest : List Char} (h : HeadNotDigit rest) :
    readNum true (natChars n ++ rest) = some (-(n : Int), rest) := by
  rw [readNum_natChars true n h]
  rfl

theorem readNum_natChars_false (n : Nat) {rest : List Char} (h : HeadNotDigit rest) :
    readNum false (natChars n ++ rest) = some ((n : Int), rest) := by
  rw [readNum_natChars false n h]
  rfl

theorem readIntScan_intChars (v : Int) (rest : List Char) (h : HeadNotDigit rest) :
    readIntScan (intChars v ++ rest) = some (v, rest) := by
  by_cases hv : v < 0
  · have h1 : intChars v ++ rest = '-' :: (natChars v.natAbs ++ rest) := by
      simp [intChars, hv]
    have h2 : List.dropWhile charIsSpace ('-' :: (natChars v.natAbs ++ rest)) =
        '-' :: (natChars v.natAbs ++ rest) := by
      rw [List.dropWhile_cons]
      simp [show charIsSpace '-' = false from by decide]
    rw [h1]
    simp only [readIntScan, h2]
    simp only [if_true]
    rw [readNum_natChars_true v.natAbs h]
    have h4 : -(v.natAbs : Int) = v := by omega
    rw [h4]
  · have h0 : intChars v = natChars v.toNat := by simp [intChars, hv]
    obtain ⟨hd, tl, hnat, hdig⟩ := natChars_exists_cons v.toNat
    have h1 : intChars v ++ rest = hd :: (tl ++ rest) := by rw [h0, hnat]; simp
    have h2 : List.dropWhile charIsSpace (hd :: (tl ++ rest)) = hd :: (tl ++ rest) := by
      rw [List.dropWhile_cons]
      simp [isDigit_not_space hdig]
    rw [h1]
    simp only [readIntScan, h2]
    rw [if_neg (isDigit_ne_minus hdig), if_neg (isDigit_ne_plus hdig)]
    have h3 : hd :: (tl ++ rest) = natChars v.toNat ++ rest := by rw [hnat]; simp
    rw [h3, readNum_natChars_false v.toNat h]
    have h4 : ((v.toNat : Int)) = v := by omega
    rw [h4]

theorem parseIntSafe_intChars (v : Int) (h1 : INT_MIN ≤ v) (h2 : v ≤ INT_MAX) :
    parseIntSafe (intChars v) = some v := by
  unfold parseIntSafe
  rw [show intChars v = intChars v ++ [] by simp, readIntScan_intChars v [] headNotDigit_nil]
  simp [h1, h2]

theorem intChars_ne_nil (v : Int) : intChars v ≠ [] := by
  unfold intChars
  by_cases hv : v < 0
  · simp [hv]
  · simp [hv, natChars_ne_nil]

theorem intChars_no_bar (v : Int) : '|' ∉ intChars v := by
  unfold intChars
  by_cases hv : v < 0
  · simp only [hv, if_true, List.mem_cons]
    rintro (h | h)
    · exact absurd h.symm (by decide)
    · exact isDigit_ne_bar (natChars_all_digits _ _ h) rfl
  · simp only [hv, if_false]
    intro h
    exact isDigit_ne_bar (natChars_all_digits _ _ h) rfl

theorem scanfInts_cons_bar (n : Nat) (v : Int) (t : List Char) :
    scanfInts (n + 1) (intChars v ++ '|' :: t) = v :: scanfInts n t := by
  rw [scanfInts, readIntScan_intChars v ('|' :: t) (headNotDigit_cons (by decide))]
  rfl

theorem scanfInts_last (n : Nat) (v : Int) :
    scanfInts (n + 1) (intChars v) = [v] := by
  rw [scanfInts, show intChars v = intChars v ++ [] by simp,
    readIntScan_intChars v [] headNotDigit_nil]

theorem scanfInts_joinBar : ∀ vs : List Int, vs ≠ [] →
    scanfInts vs.length (joinBar (vs.map intChars)) = vs := by
  intro vs
  induction vs with
  | nil => intro h; exact absurd rfl h
  | cons v vs ih =>
    intro _
    cases vs with
    | nil =>
      simp only [List.map_cons, List.map_nil, List.length_singleton, joinBar]
      exact scanfInts_last 0 v
    | cons w ws =>
      have hjoin : joinBar (intChars v :: intChars w :: ws.map intChars) =
          intChars v ++ '|' :: joinBar (intChars w :: ws.map intChars) := rfl
      simp only [List.map_cons, List.length_cons, hjoin]
      rw [scanfInts_cons_bar]
      have hrec := ih (by simp)
      simp only [List.map_cons, List.length_cons] at hrec
      rw [hrec]

theorem splitBarRaw_barless (f : List Char) (h : '|' ∉ f) : splitBarRaw f = [f] := by
  induction f with
  | nil => rfl
  | cons c f ih =>
    simp only [List.mem_cons, not_or] at h
    rw [splitBarRaw, if_neg (fun hc : c = '|' => h.1 hc.symm), ih h.2]

theorem splitBarRaw_append (f t : List Char) (h : '|' ∉ f) :
    splitBarRaw (f ++ '|' :: t) = f :: splitBarRaw t := by
  induction f with
  | nil =>
    rw [List.nil_append, splitBarRaw, if_pos rfl]
  | cons c f ih =>
    simp only [List.mem_cons, not_or] at h
    rw [List.cons_append, splitBarRaw, if_neg (fun hc : c = '|' => h.1 hc.symm), ih h.2]

theorem isEmpty_false_of_ne_nil {f : List Char} (h : f ≠ []) : f.isEmpty = false := by
  cases f with
  | nil => exact absurd rfl h
  | cons a l => rfl

theorem strtokSplit_joinBar : ∀ fs : List (List Char),
    (∀ f ∈ fs, f ≠ [] ∧ '|' ∉ f) → strtokSplit (joinBar fs) = fs := by
  intro fs
  induction fs with
  | nil => intro _; rfl
  | cons f fs ih =>
    intro hf
    obtain ⟨hne, hbar⟩ := hf f (List.mem_cons_self f fs)
    cases fs with
    | nil =>
      simp only [joinBar, strtokSplit]
      rw [splitBarRaw_barless f hbar]
      simp [dropEmptyTokens, isEmpty_false_of_ne_nil hne]
    | cons g gs =>
      have hjoin : joinBar (f :: g :: gs) = f ++ '|' :: joinBar (g :: gs) := rfl
      simp only [strtokSplit, hjoin]
      rw [splitBarRaw_append f _ hbar]
      have hrec := ih (fun x hx => hf x (List.mem_cons_of_mem f hx))
      simp only [strtokSplit] at hrec
      simp [dropEmptyTokens, isEmpty_false_of_ne_nil hne, hrec]

/-! ### Claim C2 -/

/-- C2: the claim says a failed load (here: header declaring 100
combatants, beyond the 50 maximum) leaves the prior roster, count,
cursor, round, combat log and undo stack untouched.  The code instead
clears the log, the undo stack and the roster array before parsing, and
its error return keeps the partially applied header fields — including
the out-of-range count itself.  Evaluated at the concrete input: the
prior state had count 1, one combatant, 3 log entries, 1 snapshot and
round 7; after the failed load the count is 100, the roster, log and
undo stack are empty, and the round is 1. -/
theorem C2_load_failure_partial_state :
    (loadState true (some exBadCountFile) exPriorState).count = 100 ∧
    (loadState true (some exBadCountFile) exPriorState).combatants = [] ∧
    (loadState true (some exBadCountFile) exPriorState).logCount = 0 ∧
    (loadState true (some exBadCountFile) exPriorState).undoStack = [] ∧
    (loadState true (some exBadCountFile) exPriorState).round = 1 ∧
    exPriorState.count = 1 ∧ exPriorState.combatants ≠ [] ∧
    exPriorState.logCount = 3 ∧ exPriorState.undoStack ≠ [] ∧
    exPriorState.round = 7 := by
  decide

/-! ### Claim C1, counterexample part -/

/-- C1 counterexample: `exGapState` is a valid in-memory state within
capacity bounds (one combatant with id 1, `nextId = 5`, as left by adding
four combatants and removing three), yet save followed immediately by
load yields `nextId = 2`: `load_state` recomputes `nextId` as
`max id + 1` instead of restoring the saved header field, so the header
fields are not all reproduced. -/
theorem C1_nextId_not_restored :
    (loadState true (some (saveFile exGapState)) exGapState).nextId = 2 ∧
    exGapState.nextId = 5 := by
  decide

/-! ### Claim C5, counterexample part -/

/-- C5 counterexample: `load` is one of the listed operations, but
`load_state` parses `maxHp` and `hp` without any range validation or
clamping: loading a file whose record says `maxHp = 5, hp = 99` produces
a roster combatant with `hp > maxHp`. -/
theorem C5_load_breaks_hp_bounds :
    (loadState true (some exBadHpFile) initState).count = 1 ∧
    (getC (loadState true (some exBadHpFile) initState).combatants 0).hp = 99 ∧
    (getC (loadState true (some exBadHpFile) initState).combatants 0).maxHp = 5 := by
  decide

/-! ### Claim C4, counterexample part -/

/-- C4 counterexample: healing a dead player.  `exDeadState` holds a dead
(`isDead = 1`) player at 0 HP with the Unconscious condition set (the
state every death path leaves).  `edit_hp` with `+5` takes the
heal-from-zero branch, which executes `c->is_dead = 0`: healing *does*
clear `isDead` and auto-revives the dead combatant, contradicting the
claim that death is terminal under healing. -/
theorem C4_healing_revives_dead :
    (getC exDeadState.combatants 0).isDead = 1 ∧
    (getC (editHp 5 false exDeadState).combatants 0).isDead = 0 ∧
    (getC (editHp 5 false exDeadState).combatants 0).hp = 5 := by
  decide

/-! ### Claim C3, counterexample part -/

/-- C3 counterexample: a reachable state in which a death-save roll moves
the failure counter above 3.  From the start state: add a 5-HP player,
deal 5 damage (down to 0, counters reset), roll two ordinary failures
(die roll 3), then roll a natural 1 (+2 failures).  The code checks
`failures >= 3` but never caps the counter, so the player dies with
`deathSaveFailures = 4`. -/
theorem C3_failures_reach_four :
    ReachableNL (execList exFourFailCmds initState) ∧
    (getC (execList exFourFailCmds initState).combatants 0).deathSaveFailures = 4 ∧
    (getC (execList exFourFailCmds initState).combatants 0).isDead = 1 := by
  refine ⟨?_, by decide, by decide⟩
  show ReachableNL (execCommand (Command.deathSave 0)
    (execCommand (Command.deathSave 2) (execCommand (Command.deathSave 2)
      (execCommand (Command.editHp (-5) false)
        (execCommand (Command.add true ['A'] 10 0 5) initState)))))
  exact ReachableNL.step _ _ rfl (ReachableNL.step _ _ rfl (ReachableNL.step _ _ rfl
    (ReachableNL.step _ _ rfl (ReachableNL.step _ _ rfl ReachableNL.init))))

/-! ### Claim C6, counterexample part -/

/-- C6 counterexample: when the last mutating command is `load`, one undo
does not restore the state from immediately before it.  After
[add "A"; load file-with-"B"; undo] the roster still holds "B" (load
wiped the undo stack, so the undo reports "nothing to undo"), while the
state immediately before the load held "A". -/
theorem C6_undo_after_load_fails :
    ((execList exLoadUndoCmds initState).combatants.map Combatant.name
      = [String.toList "B"]) ∧
    ((execList [Command.add true ['A'] 10 0 5] initState).combatants.map Combatant.name
      = [String.toList "A"]) := by
  decide

/-! ### Claim C8 -/

/-- C8: duplicate naming.  First part (as the claim states): duplicating
a lone combatant named "Goblin" by 2 renames the original to "Goblin 1"
and names the copies "Goblin 2" and "Goblin 3".  Second part (the bug):
with a pre-existing combatant already named "Goblin 1", duplicating
"Goblin" renames the original to "Goblin 1" without checking that suffix,
so the roster ends up with two combatants named "Goblin 1" — the
assigned names do collide with a pre-existing "Goblin N", contradicting
the claim and the function's own doc comment ("ensuring no name
collisions"). -/
theorem C8_duplicate_rename_collision :
    (((execCommand (Command.duplicate 2 [5, 7]) exGoblinState).combatants.map
        Combatant.name).length = 3 ∧
      ((execCommand (Command.duplicate 2 [5, 7]) exGoblinState).combatants.map
        Combatant.name).count (String.toList "Goblin 1") = 1 ∧
      ((execCommand (Command.duplicate 2 [5, 7]) exGoblinState).combatants.map
        Combatant.name).count (String.toList "Goblin 2") = 1 ∧
      ((execCommand (Command.duplicate 2 [5, 7]) exGoblinState).combatants.map
        Combatant.name).count (String.toList "Goblin 3") = 1) ∧
    ((execCommand (Command.duplicate 1 [5]) exGoblinPairState).combatants.map
        Combatant.name).count (String.toList "Goblin 1") = 2 := by
  decide

/-! ### Small array-access lemmas -/

theorem getC_setC {l : List Combatant} {i : Nat} (h : i < l.length) (c : Combatant) :
    getC (setC l i c) i = c := by
  unfold getC setC
  rw [List.getD_eq_getElem?_getD, List.getElem?_set_self]
  · rfl
  · simpa using h

theorem getC_setC_ne {l : List Combatant} {i j : Nat} (h : i ≠ j) (c : Combatant) :
    getC (setC l i c) j = getC l j := by
  unfold getC setC
  rw [List.getD_eq_getElem?_getD, List.getElem?_set_ne h, ← List.getD_eq_getElem?_getD]

theorem length_setC (l : List Combatant) (i : Nat) (c : Combatant) :
    (setC l i c).length = l.length := by
  simp [setC]

/-! ### Claim C9 -/

/-- C9: previous-turn frame property.  `prev_turn` never writes to any
roster slot: the combatant list (and with it every hp, condition bitmask
and condition duration), the count, the id counter and the undo stack are
unchanged; the round either stays or (only when wrapping backward with
round > 1) drops by exactly one.  In particular no condition expired at a
forward round wrap is restored. -/
theorem C9_prev_turn_frame (s : GameState) (h : 0 < s.count) :
    (prevTurn s).combatants = s.combatants ∧
    (prevTurn s).count = s.count ∧
    (prevTurn s).nextId = s.nextId ∧
    (prevTurn s).undoStack = s.undoStack ∧
    ((prevTurn s).round = s.round ∨ (1 < s.round ∧ (prevTurn s).round = s.round - 1)) := by
  have hc : ¬(s.count = 0) := by omega
  simp only [prevTurn, hc, if_false, prevTurnFinish, logAction]
  split
  · split
    · exact ⟨rfl, rfl, rfl, rfl, Or.inr ⟨by omega, rfl⟩⟩
    · exact ⟨rfl, rfl, rfl, rfl, Or.inl rfl⟩
  · exact ⟨rfl, rfl, rfl, rfl, Or.inl rfl⟩

/-- C9 witness at a concrete state. -/
theorem C9_prev_turn_frame_witness :
    0 < exPriorState.count ∧
    (prevTurn exPriorState).combatants = exPriorState.combatants := by
  exact ⟨by decide, (C9_prev_turn_frame exPriorState (by decide)).1⟩

/-! ### Claim C10 -/

/-- C10: the instant-death branch of `edit_hp` has no faction test.  For
any combatant (player or enemy) at positive HP, a damage event whose
excess beyond what reduced hp to 0 reaches `maxHp` sets `isDead`, zeroes
`hp`, applies the Unconscious condition bit and resets the death-save
fields — the very next statement after the check, before any
player-only code runs. -/
theorem C10_instant_death_any_faction (s : GameState) (idx : Nat) (c : Combatant)
    (change : Int) (crit : Bool)
    (hidx : getIndexById s.combatants s.selectedId = some idx)
    (hlen : idx < s.combatants.length)
    (hc : getC s.combatants idx = c)
    (hhp : 0 < c.hp) (hch : change < 0)
    (hexc : -change - c.hp ≥ c.maxHp) (hmax : 0 ≤ c.maxHp) :
    getC (editHp change crit s).combatants idx =
      resetDeathSaves { c with hp := 0, isDead := 1, conditions := c.conditions ||| 8192 } := by
  unfold editHp
  rw [hidx]
  simp only [hc]
  rw [if_pos]
  · simp only [logAction]
    exact getC_setC hlen _
  · refine ⟨by simp [hch], hhp, ?_, ?_⟩
    · simp [hch]
      omega
    · simp [hch]
      omega

/-- C10 witness: 13 damage on the 3/10-HP **enemy** (excess 10 ≥ maxHp
10) marks it dead with Unconscious applied and counters reset. -/
theorem C10_instant_death_witness :
    (getC exEnemyState.combatants 0).ctype = 1 ∧
    getC (editHp (-13) false exEnemyState).combatants 0 =
      resetDeathSaves { getC exEnemyState.combatants 0 with
        hp := 0, isDead := 1,
        conditions := (getC exEnemyState.combatants 0).conditions ||| 8192 } := by
  refine ⟨by decide, ?_⟩
  exact C10_instant_death_any_faction exEnemyState 0 _ (-13) false (by decide) (by decide)
    rfl (by decide) (by decide) (by decide) (by decide)


theorem and_mask_clear (x : Nat) : (x &&& 57343) &&& 8192 = 0 := by
  rw [Nat.and_assoc, show (57343 &&& 8192 : Nat) = 0 by decide]
  simp

theorem getC_setC_setC {l : List Combatant} {i : Nat} (h : i < l.length) (a b : Combatant) :
    getC (setC (setC l i a) i b) i = b := by
  apply getC_setC
  rw [length_setC]
  exact h

/-- C4 amended: healing a dead Player at 0 HP with a positive delta
clears `isDead` (auto-revives it) exactly when the Unconscious condition
is set — which every death path in the code leaves set; only a dead
player whose Unconscious bit was removed by hand keeps `isDead` through
healing.  The clause of the claim that `isDead` is never cleared by
healing is therefore false; the rest (Unconscious cleared, counters and
`isStable` reset) holds on the revive path. -/
theorem C4_heal_dead_amended (s : GameState) (idx : Nat) (c : Combatant)
    (change : Int) (crit : Bool)
    (hidx : getIndexById s.combatants s.selectedId = some idx)
    (hlen : idx < s.combatants.length)
    (hc : getC s.combatants idx = c)
    (hplayer : c.ctype = 0) (hdead : c.isDead ≠ 0) (hhp : c.hp = 0)
    (hmax : 1 ≤ c.maxHp) (hpos : 0 < change) :
    (c.conditions &&& 8192 ≠ 0 →
      (getC (editHp change crit s).combatants idx).isDead = 0 ∧
      (getC (editHp change crit s).combatants idx).conditions &&& 8192 = 0 ∧
      (getC (editHp change crit s).combatants idx).deathSaveSuccesses = 0 ∧
      (getC (editHp change crit s).combatants idx).deathSaveFailures = 0 ∧
      (getC (editHp change crit s).combatants idx).isStable = 0 ∧
      0 < (getC (editHp change crit s).combatants idx).hp) ∧
    (c.conditions &&& 8192 = 0 →
      (getC (editHp change crit s).combatants idx).isDead = c.isDead ∧
      0 < (getC (editHp change crit s).combatants idx).hp) := by
  have hnn : ¬(change < 0) := by omega
  have hdam : (if change < 0 then -change else 0) = 0 := by simp [hnn]
  have hne : ¬(change = 0) := by omega
  have hp2nn : ¬((if c.maxHp < change then c.maxHp else change) < 0) := by
    by_cases h : c.maxHp < change
    · simp [h]; omega
    · simp [h]; omega
  have hp2pos : 0 < (if c.maxHp < change then c.maxHp else change) := by
    by_cases h : c.maxHp < change
    · simp [h]; omega
    · simp [h]; omega
  simp only [editHp, hidx, hc, hdam, hhp, logAction, gt_iff_lt, lt_self_iff_false,
    false_and, and_false, if_false, ite_false, zero_add, ne_eq, hne, not_false_eq_true,
    if_true, ite_true, hp2nn, getC_setC hlen, hplayer, hp2pos, le_refl, and_true, true_and]
  constructor
  · intro hbit
    simp only [hbit, not_false_eq_true, if_true, ite_true, getC_setC_setC hlen,
      resetDeathSaves]
    simp [and_mask_clear, hp2pos]
  · intro hbit
    simp only [hbit, not_true_eq_false, if_false, ite_false, getC_setC hlen]
    simp [hp2pos]

/-- C4 amended witness: the dead unconscious player of `exDeadState`
healed by +5 comes back with `isDead = 0` and 5 HP. -/
theorem C4_heal_dead_witness :
    (getC (editHp 5 false exDeadState).combatants 0).isDead = 0 ∧
    0 < (getC (editHp 5 false exDeadState).combatants 0).hp := by
  have h := C4_heal_dead_amended exDeadState 0 (getC exDeadState.combatants 0) 5 false
    (by decide) (by decide) rfl (by decide) (by decide) (by decide) (by decide) (by decide)
  have h2 := h.1 (by decide)
  exact ⟨h2.1, h2.2.2.2.2.2⟩

theorem parseIC (v : Int) (h : IntRange v) : parseIntSafe (intChars v) = some v :=
  parseIntSafe_intChars v h.1 h.2

theorem loadCombatant_saveLine (c : Combatant) (h : ValidComb c) :
    loadCombatant (strtokSplit (saveLine c)) = some c := by
  obtain ⟨hn1, hn2, hn3, hid1, hid2, hty, hini, hdex, hmax, hhp, hcond,
    hdss, hdsf, hst, hdd, hdl, hdr⟩ := h
  have hbar : ∀ f ∈ ([intChars c.id, c.name, intChars c.ctype, intChars c.initiative,
      intChars c.dex, intChars c.maxHp, intChars c.hp,
      intChars (c.conditions : Int), intChars c.deathSaveSuccesses,
      intChars c.deathSaveFailures, intChars c.isStable, intChars c.isDead]
      ++ c.conditionDuration.map intChars), f ≠ [] ∧ '|' ∉ f := by
    intro f hf
    simp only [List.mem_append, List.mem_cons, List.mem_singleton, List.mem_map,
      List.not_mem_nil, or_false] at hf
    rcases hf with hf | hf
    · rcases hf with rfl | rfl | rfl | rfl | rfl | rfl | rfl | rfl | rfl | rfl | rfl | rfl
      · exact ⟨intChars_ne_nil _, intChars_no_bar _⟩
      · exact ⟨hn1, fun hm => (hn3 '|' hm).1 rfl⟩
      all_goals exact ⟨intChars_ne_nil _, intChars_no_bar _⟩
    · obtain ⟨d, _, rfl⟩ := hf
      exact ⟨intChars_ne_nil _, intChars_no_bar _⟩
  have htok := strtokSplit_joinBar _ hbar
  rw [saveLine, htok]
  simp only [List.cons_append, List.nil_append, loadCombatant,
    parseIC c.id ⟨by unfold INT_MIN; omega, by unfold INT_MAX; omega⟩,
    parseIC c.ctype hty, parseIC c.initiative hini, parseIC c.dex hdex,
    parseIC c.maxHp hmax, parseIC c.hp hhp,
    parseIC (c.conditions : Int) ⟨by unfold INT_MIN; omega, by unfold INT_MAX; omega⟩,
    parseIC c.deathSaveSuccesses hdss, parseIC c.deathSaveFailures hdsf,
    parseIC c.isStable hst, parseIC c.isDead hdd]
  have hrest : ∀ j : Nat, (intChars c.deathSaveSuccesses :: intChars c.deathSaveFailures ::
      intChars c.isStable :: intChars c.isDead :: List.map intChars c.conditionDuration).get? (4 + j)
      = (c.conditionDuration.get? j).map intChars := by
    intro j
    rw [show 4 + j = (((j + 1) + 1) + 1) + 1 from by omega]
    simp only [List.get?_cons_succ]
    rw [List.get?_eq_getElem?, List.get?_eq_getElem?, List.getElem?_map]
  have hdurs : (List.range 15).map (fun j =>
      match (intChars c.deathSaveSuccesses :: intChars c.deathSaveFailures ::
        intChars c.isStable :: intChars c.isDead ::
        List.map intChars c.conditionDuration).get? (4 + j) with
      | some t => (parseIntSafe t).getD 0
      | none => 0) = c.conditionDuration := by
    apply List.ext_getElem
    · simp [hdl]
    · intro i h1 h2
      simp only [List.getElem_map, List.getElem_range]
      rw [hrest i, List.get?_eq_getElem?, List.getElem?_eq_getElem h2]
      simp [parseIC (c.conditionDuration[i]) (hdr _ (List.getElem_mem h2))]
  rw [hdurs, List.take_of_length_le hn2]
  have e2 : ((c.conditions : Int) % 65536).toNat = c.conditions := by
    rw [Int.emod_eq_of_lt (Int.natCast_nonneg _) (by exact_mod_cast hcond)]
    omega
  rw [e2]
  simp [parseIC c.deathSaveSuccesses hdss, parseIC c.deathSaveFailures hdsf,
    parseIC c.isStable hst, parseIC c.isDead hdd]

theorem loadRecords_saveLines : ∀ (ros : List Combatant) (idx : Nat),
    idx + ros.length ≤ 50 → (∀ c ∈ ros, ValidComb c) →
    loadRecords (ros.map saveLine) idx = ros := by
  intro ros
  induction ros with
  | nil => intro idx _ _; rfl
  | cons c cs ih =>
    intro idx hb hv
    simp only [List.map_cons, loadRecords]
    rw [if_pos (by simp at hb; omega)]
    rw [loadCombatant_saveLine c (hv c (List.mem_cons_self c cs))]
    rw [ih (idx + 1) (by simp at hb ⊢; omega) (fun x hx => hv x (List.mem_cons_of_mem c hx))]

theorem foldl_max_id_bounds : ∀ (l : List Combatant) (m : Int), 0 ≤ m → m ≤ 2147483645 →
    (∀ c ∈ l, c.id ≤ 2147483645) →
    0 ≤ l.foldl (fun m c => if c.id > m then c.id else m) m ∧
    l.foldl (fun m c => if c.id > m then c.id else m) m ≤ 2147483645 := by
  intro l
  induction l with
  | nil => intro m h1 h2 _; exact ⟨h1, h2⟩
  | cons c cs ih =>
    intro m h1 h2 hv
    simp only [List.foldl_cons]
    by_cases hc : c.id > m
    · simp only [hc, if_true, ite_true]
      exact ih c.id (by omega) (hv c (List.mem_cons_self c cs))
        (fun x hx => hv x (List.mem_cons_of_mem c hx))
    · simp only [hc, if_false, ite_false]
      exact ih m h1 h2 (fun x hx => hv x (List.mem_cons_of_mem c hx))

/-- C1 amended: for every valid in-memory state within capacity bounds,
save followed immediately by load reproduces the roster exactly (ids,
names, faction, initiative, dex, maxHp, hp, condition bitmask, durations
and death-save fields included, since the whole combatant records are
equal) together with the header fields round, count, currentTurnId and
selectedId.  The remaining header field `nextId` is not restored: load
recomputes it as `max(loaded ids) + 1` (see `C1_nextId_not_restored` for
a valid state where this changes it). -/
theorem C1_save_load_roundtrip_amended (s : GameState) (h : ValidSave s) :
    (loadState true (some (saveFile s)) s).combatants = s.combatants ∧
    (loadState true (some (saveFile s)) s).count = s.count ∧
    (loadState true (some (saveFile s)) s).round = s.round ∧
    (loadState true (some (saveFile s)) s).currentTurnId = s.currentTurnId ∧
    (loadState true (some (saveFile s)) s).selectedId = s.selectedId ∧
    (loadState true (some (saveFile s)) s).nextId =
      s.combatants.foldl (fun m c => if c.id > m then c.id else m) 0 + 1 := by
  obtain ⟨hcount, hlen, hround, hrR, hnR, htR, hsR, hsort, hv⟩ := h
  have htake : s.combatants.take s.count.toNat = s.combatants := by
    rw [hcount]
    simp
  have hscan : scanfInts 5 (saveHeader s) =
      [s.round, s.nextId, s.count, s.currentTurnId, s.selectedId] := by
    have h5 := scanfInts_joinBar [s.round, s.nextId, s.count, s.currentTurnId,
      s.selectedId] (by simp)
    simpa [saveHeader] using h5
  have hrecs : loadRecords (s.combatants.map saveLine) 0 = s.combatants :=
    loadRecords_saveLines s.combatants 0 (by omega) hv
  have hmax := foldl_max_id_bounds s.combatants 0 (by omega) (by omega)
    (fun c hc => ((hv c hc).2.2.2.2.1))
  have hcnt : ¬(s.count < 0 ∨ s.count > 50) := by omega
  have hrnd : ¬(s.round < 1) := by omega
  have hnid : ¬(s.combatants.foldl (fun m c => if c.id > m then c.id else m) 0 + 1 ≤ 0 ∨
      s.combatants.foldl (fun m c => if c.id > m then c.id else m) 0 + 1 = INT_MAX) := by
    unfold INT_MAX
    omega
  simp only [loadState, saveFile, htake, hscan, hrecs, not_true, and_false, if_false,
    ite_false, List.length_cons, List.length_nil, List.getD_cons_zero, List.getD_cons_succ,
    ne_eq, not_false_eq_true, hcnt, hrnd, hnid, ite_true, if_true,
    sortCombatants, logAction, hsort, ite_self]
  exact ⟨trivial, hcount.symm, trivial, trivial, trivial, trivial⟩

/-- C1 witness: the round trip applied to `exRoundTripState`. -/
theorem C1_save_load_roundtrip_witness :
    ValidSave exRoundTripState ∧
    (loadState true (some (saveFile exRoundTripState)) exRoundTripState).combatants
      = exRoundTripState.combatants := by
  refine ⟨by decide, (C1_save_load_roundtrip_amended exRoundTripState (by decide)).1⟩

/-! ### Undo-stack frame lemmas: no roster operation touches the stack
(only the dispatcher pushes and `undo`/`load` pop or clear). -/

theorem undoStack_logAction (s : GameState) : (logAction s).undoStack = s.undoStack := rfl

theorem undoStack_sortCombatants (s : GameState) :
    (sortCombatants s).undoStack = s.undoStack := by
  unfold sortCombatants
  split <;> rfl

theorem undoStack_handleDamageAtZeroHp (b : Bool) (idx : Nat) (s : GameState) :
    (handleDamageAtZeroHp b idx s).undoStack = s.undoStack := by
  unfold handleDamageAtZeroHp logAction
  dsimp only
  repeat' split
  all_goals rfl

theorem undoStack_rollDeathSaveAt (r idx : Nat) (s : GameState) :
    (rollDeathSaveAt r idx s).undoStack = s.undoStack := by
  unfold rollDeathSaveAt logAction
  dsimp only
  repeat' split
  all_goals rfl

theorem undoStack_rollDeathSaveSelected (r : Nat) (s : GameState) :
    (rollDeathSaveSelected r s).undoStack = s.undoStack := by
  unfold rollDeathSaveSelected
  split
  · rfl
  · rw [undoStack_rollDeathSaveAt]

theorem undoStack_decrement (s : GameState) :
    (decrementConditionDurations s).undoStack = s.undoStack := rfl

theorem undoStack_nextTurnFinish (r idx : Nat) (s : GameState) :
    (nextTurnFinish r idx s).undoStack = s.undoStack := by
  unfold nextTurnFinish logAction
  dsimp only
  repeat' split
  all_goals first
    | rfl
    | (rw [undoStack_rollDeathSaveAt]; try rfl)

theorem undoStack_nextTurn (r : Nat) (s : GameState) :
    (nextTurn r s).undoStack = s.undoStack := by
  unfold nextTurn
  dsimp only
  repeat' split
  all_goals first
    | rfl
    | (rw [undoStack_nextTurnFinish]; try rfl)
    | (rw [undoStack_nextTurnFinish, undoStack_logAction, undoStack_decrement]; try rfl)

theorem undoStack_prevTurnFinish (idx : Nat) (s : GameState) :
    (prevTurnFinish idx s).undoStack = s.undoStack := rfl

theorem undoStack_prevTurn (s : GameState) : (prevTurn s).undoStack = s.undoStack := by
  unfold prevTurn
  dsimp only
  repeat' split
  all_goals first
    | rfl
    | (rw [undoStack_prevTurnFinish]; try rfl)
    | (rw [undoStack_prevTurnFinish, undoStack_logAction]; try rfl)

theorem undoStack_addCombatant (p : Bool) (nm : List Char) (i d m : Int) (s : GameState) :
    (addCombatant p nm i d m s).undoStack = s.undoStack := by
  simp only [addCombatant, logAction]
  repeat' split
  all_goals first
    | rfl
    | (rw [undoStack_sortCombatants]; try rfl)
    | (rw [undoStack_sortCombatants]; split <;> rfl)
    | simp [undoStack_sortCombatants]

theorem undoStack_removeCombatant (cf : Bool) (s : GameState) :
    (removeCombatant cf s).undoStack = s.undoStack := by
  unfold removeCombatant logAction
  dsimp only
  repeat' split
  all_goals rfl

theorem undoStack_editHp (ch : Int) (cr : Bool) (s : GameState) :
    (editHp ch cr s).undoStack = s.undoStack := by
  unfold editHp logAction
  split
  · rfl
  · simp only [apply_ite GameState.undoStack, undoStack_handleDamageAtZeroHp, ite_self]

theorem undoStack_rerollInitiative (v : Int) (s : GameState) :
    (rerollInitiative v s).undoStack = s.undoStack := by
  simp only [rerollInitiative, logAction]
  repeat' split
  all_goals first
    | rfl
    | (rw [undoStack_sortCombatants]; try rfl)
    | (rw [undoStack_sortCombatants]; split <;> rfl)
    | simp [undoStack_sortCombatants]

theorem undoStack_stabilizeCombatant (s : GameState) :
    (stabilizeCombatant s).undoStack = s.undoStack := by
  unfold stabilizeCombatant logAction
  dsimp only
  repeat' split
  all_goals rfl

theorem undoStack_dupLoop (base : List Char) (sn : Int) (src : Combatant)
    (rolls : List Nat) : ∀ (k i : Nat) (s : GameState),
    (dupLoop base sn src rolls k i s).undoStack = s.undoStack := by
  intro k
  induction k with
  | zero => intro i s; rfl
  | succ k ih =>
    intro i s
    unfold dupLoop
    split
    · rfl
    · rw [ih]

theorem undoStack_duplicateCombatant (n : Nat) (rolls : List Nat) (s : GameState) :
    (duplicateCombatant n rolls s).undoStack = s.undoStack := by
  unfold duplicateCombatant logAction
  split
  · rfl
  · split
    · rfl
    · simp only [apply_ite GameState.undoStack, undoStack_sortCombatants,
        undoStack_dupLoop, ite_self]

theorem undoStack_applyCondOp (tid : Int) (s : GameState) (op : CondOp) :
    (applyCondOp tid s op).undoStack = s.undoStack := by
  unfold applyCondOp logAction
  dsimp only
  repeat' split
  all_goals rfl

theorem undoStack_condFold (tid : Int) : ∀ (ops : List CondOp) (s : GameState),
    (ops.foldl (applyCondOp tid) s).undoStack = s.undoStack := by
  intro ops
  induction ops with
  | nil => intro s; rfl
  | cons op ops ih =>
    intro s
    simp only [List.foldl_cons]
    rw [ih, undoStack_applyCondOp]

/-- Popping the snapshot `save_undo_state` pushed restores the five saved
fields, whatever the command did to the rest of the state afterwards. -/
theorem undo_restores (s t : GameState)
    (h : t.undoStack = (saveUndoState s).undoStack) :
    (undoLastAction t).combatants = s.combatants.take s.count.toNat ∧
    (undoLastAction t).count = s.count ∧
    (undoLastAction t).currentTurnId = s.currentTurnId ∧
    (undoLastAction t).selectedId = s.selectedId ∧
    (undoLastAction t).round = s.round := by
  unfold undoLastAction
  rw [h]
  unfold saveUndoState snapOf
  simp [logAction, List.getLast?_concat, List.take_take]

/-- Every command branch that reaches `save_undo_state` leaves the stack it
pushed intact: the mutation after the push never touches `undo_stack`. -/
theorem execCommand_pushes (cmd : Command) (s : GameState)
    (hp : pushesSnapshot cmd s) :
    (execCommand cmd s).undoStack = (saveUndoState s).undoStack := by
  cases cmd with
  | add p nm i d m => exact undoStack_addCombatant p nm i d m (saveUndoState s)
  | snapOnly => rfl
  | remove cf =>
    simp only [pushesSnapshot] at hp
    simp only [execCommand, if_pos hp]
    exact undoStack_removeCombatant cf (saveUndoState s)
  | editHp ch cr =>
    simp only [pushesSnapshot] at hp
    simp only [execCommand, if_pos hp]
    exact undoStack_editHp ch cr (saveUndoState s)
  | reroll v =>
    simp only [pushesSnapshot] at hp
    simp only [execCommand, if_pos hp]
    exact undoStack_rerollInitiative v (saveUndoState s)
  | condSession ops =>
    simp only [pushesSnapshot] at hp
    obtain ⟨h1, h2⟩ := hp
    simp only [execCommand, if_pos h1]
    unfold toggleConditionSession
    rw [if_neg (by omega)]
    obtain ⟨i, hi⟩ := Option.isSome_iff_exists.mp h2
    rw [hi]
    exact undoStack_condFold s.selectedId ops (saveUndoState s)
  | next r =>
    simp only [pushesSnapshot] at hp
    simp only [execCommand, if_pos hp]
    exact undoStack_nextTurn r (saveUndoState s)
  | prev =>
    simp only [pushesSnapshot] at hp
    simp only [execCommand, if_pos hp]
    exact undoStack_prevTurn (saveUndoState s)
  | save => exact absurd hp (by simp [pushesSnapshot])
  | load cf f => exact absurd hp (by simp [pushesSnapshot])
  | exportLog => exact absurd hp (by simp [pushesSnapshot])
  | undo => exact absurd hp (by simp [pushesSnapshot])
  | deathSave r =>
    simp only [pushesSnapshot] at hp
    simp only [execCommand, if_pos hp]
    exact undoStack_rollDeathSaveSelected r (saveUndoState s)
  | stabilize =>
    simp only [pushesSnapshot] at hp
    simp only [execCommand, if_pos hp]
    exact undoStack_stabilizeCombatant (saveUndoState s)
  | duplicate n rolls =>
    simp only [pushesSnapshot] at hp
    simp only [execCommand, if_pos hp]
    exact undoStack_duplicateCombatant n rolls (saveUndoState s)
  | moveSel d => exact absurd hp (by simp [pushesSnapshot])

/-- C6 (amended).  For any state and any command whose branch reaches
`save_undo_state` (add and the snapshot key always; remove, edit-hp,
reroll, next/prev turn, manual death save, stabilize and duplicate when
the roster is non-empty; the condition menu when additionally the
selected id resolves), executing the command and then one undo restores
the live roster (the first `count` slots), the count, the current-turn
id, the selected id and the round to their values from immediately
before the command.  Commands that push no snapshot — save, export,
undo, the arrow keys, and load, which wipes the undo stack — are
excluded, as is recovery deeper than the 10-entry stack. -/
theorem C6_undo_roundtrip_amended (s : GameState) (cmd : Command)
    (hp : pushesSnapshot cmd s) :
    (undoLastAction (execCommand cmd s)).combatants = s.combatants.take s.count.toNat ∧
    (undoLastAction (execCommand cmd s)).count = s.count ∧
    (undoLastAction (execCommand cmd s)).currentTurnId = s.currentTurnId ∧
    (undoLastAction (execCommand cmd s)).selectedId = s.selectedId ∧
    (undoLastAction (execCommand cmd s)).round = s.round :=
  undo_restores s _ (execCommand_pushes cmd s hp)

theorem C6_undo_roundtrip_witness :
    pushesSnapshot (Command.editHp (-3) false) exGoblinState ∧
    ((undoLastAction (execCommand (Command.editHp (-3) false) exGoblinState)).combatants
        = exGoblinState.combatants.take exGoblinState.count.toNat ∧
      (undoLastAction (execCommand (Command.editHp (-3) false) exGoblinState)).count
        = exGoblinState.count ∧
      (undoLastAction (execCommand (Command.editHp (-3) false) exGoblinState)).currentTurnId
        = exGoblinState.currentTurnId ∧
      (undoLastAction (execCommand (Command.editHp (-3) false) exGoblinState)).selectedId
        = exGoblinState.selectedId ∧
      (undoLastAction (execCommand (Command.editHp (-3) false) exGoblinState)).round
        = exGoblinState.round) :=
  ⟨by simp only [pushesSnapshot]; decide,
   C6_undo_roundtrip_amended exGoblinState (Command.editHp (-3) false)
     (by simp only [pushesSnapshot]; decide)⟩

/-! ### Claim C7: turn wrap -/

theorem map_id_set_id : ∀ (l : List Combatant) (i : Nat) (c : Combatant),
    c.id = (getC l i).id → (setC l i c).map Combatant.id = l.map Combatant.id := by
  intro l
  induction l with
  | nil => intro i c _; rfl
  | cons a as ih =>
    intro i c h
    cases i with
    | zero =>
      simp only [getC, List.getD_cons_zero] at h
      simp [setC, List.set_cons_zero, h]
    | succ j =>
      simp only [getC, List.getD_cons_succ] at h
      simp only [setC, List.set_cons_succ, List.map_cons]
      rw [show (as.set j c).map Combatant.id = as.map Combatant.id from ih j c h]

theorem map_id_set_set : ∀ (l : List Combatant) (i : Nat) (c1 c2 : Combatant),
    c2.id = c1.id →
    (setC (setC l i c1) i c2).map Combatant.id = (setC l i c1).map Combatant.id := by
  intro l
  induction l with
  | nil => intro i c1 c2 _; rfl
  | cons a as ih =>
    intro i c1 c2 h
    cases i with
    | zero => simp [setC, List.set_cons_zero, h]
    | succ j =>
      simp only [setC, List.set_cons_succ, List.map_cons]
      rw [show ((as.set j c1).set j c2).map Combatant.id = (as.set j c1).map Combatant.id
        from ih j c1 c2 h]

theorem map_id_set_set_id (l : List Combatant) (i : Nat) (c1 c2 : Combatant)
    (h1 : c1.id = (getC l i).id) (h2 : c2.id = c1.id) :
    (setC (setC l i c1) i c2).map Combatant.id = l.map Combatant.id :=
  (map_id_set_set l i c1 c2 h2).trans (map_id_set_id l i c1 h1)

theorem currentTurnId_rollDeathSaveAt (r i : Nat) (s : GameState) :
    (rollDeathSaveAt r i s).currentTurnId = s.currentTurnId := by
  unfold rollDeathSaveAt logAction
  dsimp only
  repeat' split
  all_goals rfl

theorem round_rollDeathSaveAt (r i : Nat) (s : GameState) :
    (rollDeathSaveAt r i s).round = s.round := by
  unfold rollDeathSaveAt logAction
  dsimp only
  repeat' split
  all_goals rfl

theorem count_rollDeathSaveAt (r i : Nat) (s : GameState) :
    (rollDeathSaveAt r i s).count = s.count := by
  unfold rollDeathSaveAt logAction
  dsimp only
  repeat' split
  all_goals rfl

theorem ids_rollDeathSaveAt (r i : Nat) (s : GameState) :
    (rollDeathSaveAt r i s).combatants.map Combatant.id
      = s.combatants.map Combatant.id := by
  unfold rollDeathSaveAt logAction
  dsimp only
  repeat' split
  all_goals first
    | rfl
    | exact map_id_set_id _ _ _ rfl
    | exact map_id_set_set_id _ _ _ _ rfl rfl

theorem currentTurnId_nextTurnFinish (r idx : Nat) (s : GameState) :
    (nextTurnFinish r idx s).currentTurnId = (getC s.combatants idx).id := by
  unfold nextTurnFinish logAction
  dsimp only
  split
  · rw [currentTurnId_rollDeathSaveAt]
  · rfl

theorem round_nextTurnFinish (r idx : Nat) (s : GameState) :
    (nextTurnFinish r idx s).round = s.round := by
  unfold nextTurnFinish logAction
  dsimp only
  split
  · rw [round_rollDeathSaveAt]
  · rfl

theorem count_nextTurnFinish (r idx : Nat) (s : GameState) :
    (nextTurnFinish r idx s).count = s.count := by
  unfold nextTurnFinish logAction
  dsimp only
  split
  · rw [count_rollDeathSaveAt]
  · rfl

theorem ids_nextTurnFinish (r idx : Nat) (s : GameState) :
    (nextTurnFinish r idx s).combatants.map Combatant.id
      = s.combatants.map Combatant.id := by
  unfold nextTurnFinish logAction
  dsimp only
  split
  · rw [ids_rollDeathSaveAt]
  · rfl

theorem ids_decrementConditionDurations (s : GameState) :
    (decrementConditionDurations s).combatants.map Combatant.id
      = s.combatants.map Combatant.id := by
  simp only [decrementConditionDurations, List.map_map]
  exact List.map_congr_left (fun c _ => rfl)

theorem getIndexById_congr_ids : ∀ (l l2 : List Combatant),
    l.map Combatant.id = l2.map Combatant.id →
    ∀ x, getIndexById l x = getIndexById l2 x := by
  intro l
  induction l with
  | nil =>
    intro l2 h x
    cases l2 with
    | nil => rfl
    | cons b bs => simp at h
  | cons a as ih =>
    intro l2 h x
    cases l2 with
    | nil => simp at h
    | cons b bs =>
      simp only [List.map_cons, List.cons.injEq] at h
      simp only [getIndexById, h.1, ih bs h.2 x]

theorem getC_id_congr : ∀ (l l2 : List Combatant),
    l.map Combatant.id = l2.map Combatant.id →
    ∀ i, (getC l i).id = (getC l2 i).id := by
  intro l
  induction l with
  | nil =>
    intro l2 h i
    cases l2 with
    | nil => rfl
    | cons b bs => simp at h
  | cons a as ih =>
    intro l2 h i
    cases l2 with
    | nil => simp at h
    | cons b bs =>
      simp only [List.map_cons, List.cons.injEq] at h
      cases i with
      | zero => simpa [getC] using h.1
      | succ j => simpa [getC, List.getD_cons_succ] using ih bs h.2 j

theorem getC_eq_get (l : List Combatant) (i : Nat) (h : i < l.length) :
    getC l i = l.get ⟨i, h⟩ := by
  unfold getC
  rw [List.getD_eq_getElem l zeroCombatant h]
  rfl

theorem getIndexById_of_nodup : ∀ (l : List Combatant) (i : Nat),
    i < l.length → (l.map Combatant.id).Nodup →
    getIndexById l ((getC l i).id) = some i := by
  intro l
  induction l with
  | nil => intro i h; simp at h
  | cons a as ih =>
    intro i hi hd
    rw [List.map_cons, List.nodup_cons] at hd
    cases i with
    | zero => simp [getIndexById, getC]
    | succ j =>
      have hj : j < as.length := by simpa using hi
      have hmem : (getC as j).id ∈ as.map Combatant.id := by
        rw [getC_eq_get as j hj]
        exact List.mem_map_of_mem Combatant.id (as.get_mem j hj)
      have hne : ¬ a.id = (getC as j).id := fun he => hd.1 (he ▸ hmem)
      have hgc : getC (a :: as) (j + 1) = getC as j := by
        unfold getC
        rw [List.getD_cons_succ]
      rw [hgc]
      show (if a.id = (getC as j).id then some 0
        else (getIndexById as ((getC as j).id)).map (fun k => k + 1)) = some (j + 1)
      rw [if_neg hne, ih j hj hd.2]
      rfl

theorem nextTurn_inv (l0 : List Combatant) (r0 : Int) (p : Nat) (t : GameState) (r : Nat)
    (hd : (l0.map Combatant.id).Nodup) (hn : 0 < l0.length)
    (h : TurnInv l0 r0 p t) : TurnInv l0 r0 (p + 1) (nextTurn r t) := by
  obtain ⟨h1, h2, h3, h4⟩ := h
  have hmod : p % l0.length < l0.length := Nat.mod_lt p hn
  have hidx : getIndexById t.combatants t.currentTurnId = some (p % l0.length) := by
    rw [getIndexById_congr_ids t.combatants l0 h1, h3]
    exact getIndexById_of_nodup l0 (p % l0.length) hmod hd
  have hdm := Nat.div_add_mod p l0.length
  unfold nextTurn
  rw [if_neg (show ¬ t.count = 0 by omega), hidx]
  dsimp only
  by_cases hw : p % l0.length + 1 = l0.length
  · rw [if_pos (show ((p % l0.length : Nat) : Int) + 1 ≥ t.count by rw [h2]; omega)]
    have harith1 : (p + 1) % l0.length = 0 := by
      rw [show p + 1 = l0.length * (p / l0.length + 1) by
        rw [Nat.mul_add, Nat.mul_one]; omega]
      exact Nat.mul_mod_right _ _
    have harith2 : (p + 1) / l0.length = p / l0.length + 1 := by
      rw [show p + 1 = l0.length * (p / l0.length + 1) by
        rw [Nat.mul_add, Nat.mul_one]; omega]
      exact Nat.mul_div_cancel_left _ hn
    have hids1 : (logAction (decrementConditionDurations
        { t with round := t.round + 1 })).combatants.map Combatant.id
        = l0.map Combatant.id := by
      rw [show (logAction (decrementConditionDurations
          { t with round := t.round + 1 })).combatants
        = (decrementConditionDurations { t with round := t.round + 1 }).combatants from rfl]
      rw [ids_decrementConditionDurations]
      exact h1
    refine ⟨?_, ?_, ?_, ?_⟩
    · rw [ids_nextTurnFinish]
      exact hids1
    · rw [count_nextTurnFinish]
      exact h2
    · rw [currentTurnId_nextTurnFinish, harith1]
      exact getC_id_congr _ l0 hids1 0
    · rw [round_nextTurnFinish]
      show t.round + 1 = _
      rw [h4, harith2]
      push_cast
      ring
  · have hlt : p % l0.length + 1 < l0.length := by omega
    rw [if_neg (show ¬ ((p % l0.length : Nat) : Int) + 1 ≥ t.count by rw [h2]; omega)]
    have htn : (((p % l0.length : Nat) : Int) + 1).toNat = p % l0.length + 1 := by omega
    rw [htn]
    have harith1 : (p + 1) % l0.length = p % l0.length + 1 := by
      rw [show p + 1 = l0.length * (p / l0.length) + (p % l0.length + 1) by omega,
        Nat.mul_add_mod, Nat.mod_eq_of_lt hlt]
    have harith2 : (p + 1) / l0.length = p / l0.length := by
      rw [show p + 1 = l0.length * (p / l0.length) + (p % l0.length + 1) by omega,
        Nat.mul_add_div hn, Nat.div_eq_of_lt hlt, Nat.add_zero]
    refine ⟨?_, ?_, ?_, ?_⟩
    · rw [ids_nextTurnFinish]
      exact h1
    · rw [count_nextTurnFinish]
      exact h2
    · rw [currentTurnId_nextTurnFinish, harith1]
      exact getC_id_congr t.combatants l0 h1 (p % l0.length + 1)
    · rw [round_nextTurnFinish, h4, harith2]

theorem execNext_inv (l0 : List Combatant) (r0 : Int) (p : Nat) (t : GameState) (r : Nat)
    (hd : (l0.map Combatant.id).Nodup) (hn : 0 < l0.length)
    (h : TurnInv l0 r0 p t) :
    TurnInv l0 r0 (p + 1) (execCommand (Command.next r) t) := by
  have hpos : t.count > 0 := by
    have h2 := h.2.1
    omega
  show TurnInv l0 r0 (p + 1) (if t.count > 0 then nextTurn r (saveUndoState t) else t)
  rw [if_pos hpos]
  exact nextTurn_inv l0 r0 p (saveUndoState t) r hd hn h

theorem execNexts_inv (l0 : List Combatant) (r0 : Int)
    (hd : (l0.map Combatant.id).Nodup) (hn : 0 < l0.length) :
    ∀ (rolls : List Nat) (p : Nat) (t : GameState), TurnInv l0 r0 p t →
    TurnInv l0 r0 (p + rolls.length) (execList (rolls.map Command.next) t) := by
  intro rolls
  induction rolls with
  | nil => intro p t h; exact h
  | cons r rs ih =>
    intro p t h
    have step := execNext_inv l0 r0 p t r hd hn h
    have rest := ih (p + 1) (execCommand (Command.next r) t) step
    have e : p + (r :: rs).length = p + 1 + rs.length := by
      simp only [List.length_cons]
      omega
    rw [e]
    show TurnInv l0 r0 (p + 1 + rs.length)
      (execList (rs.map Command.next) (execCommand (Command.next r) t))
    exact rest

/-- C7.  Turn wrap: on a non-empty roster with consistent count and
pairwise-distinct ids whose current-turn id belongs to a roster member,
issuing the next-turn command `count` times (each with an arbitrary
death-save rand value) returns the current-turn cursor to the id it
started on and increases the round by exactly 1. -/
theorem C7_turn_wrap (s : GameState) (rolls : List Nat)
    (hc : s.count = (s.combatants.length : Int))
    (hn : 0 < s.combatants.length)
    (hd : (s.combatants.map Combatant.id).Nodup)
    (hm : s.currentTurnId ∈ s.combatants.map Combatant.id)
    (hr : (rolls.length : Int) = s.count) :
    (execList (rolls.map Command.next) s).currentTurnId = s.currentTurnId ∧
    (execList (rolls.map Command.next) s).round = s.round + 1 := by
  obtain ⟨c, hcmem, hcid⟩ := List.mem_map.mp hm
  obtain ⟨⟨i, hi⟩, hci⟩ := List.mem_iff_get.mp hcmem
  have hcur : s.currentTurnId = (getC s.combatants i).id := by
    rw [getC_eq_get s.combatants i hi, hci]
    exact hcid.symm
  have hlen : rolls.length = s.combatants.length := by omega
  have h0 : TurnInv s.combatants s.round i s := by
    refine ⟨rfl, hc, ?_, ?_⟩
    · rw [Nat.mod_eq_of_lt hi]
      exact hcur
    · rw [Nat.div_eq_of_lt hi]
      simp
  have hf := execNexts_inv s.combatants s.round hd hn rolls i s h0
  obtain ⟨f1, f2, f3, f4⟩ := hf
  constructor
  · rw [f3, hlen, Nat.add_mod_right, Nat.mod_eq_of_lt hi, ← hcur]
  · rw [f4, hlen, Nat.add_div_right i hn, Nat.div_eq_of_lt hi]
    simp

theorem C7_turn_wrap_witness :
    (exGoblinPairState.count = (exGoblinPairState.combatants.length : Int) ∧
      0 < exGoblinPairState.combatants.length ∧
      (exGoblinPairState.combatants.map Combatant.id).Nodup ∧
      exGoblinPairState.currentTurnId ∈ exGoblinPairState.combatants.map Combatant.id ∧
      (([4, 9].length : Int) = exGoblinPairState.count)) ∧
    (execList ([4, 9].map Command.next) exGoblinPairState).currentTurnId
      = exGoblinPairState.currentTurnId ∧
    (execList ([4, 9].map Command.next) exGoblinPairState).round
      = exGoblinPairState.round + 1 :=
  ⟨⟨by decide, by decide, by decide, by decide, by decide⟩,
   C7_turn_wrap exGoblinPairState [4, 9] (by decide) (by decide) (by decide)
     (by decide) (by decide)⟩

/-! ### Claims C3 and C5: the per-combatant invariant is preserved by
every command other than load -/

theorem combInv_congr (c c2 : Combatant)
    (hhp : c2.hp = c.hp) (hm : c2.maxHp = c.maxHp)
    (hs : c2.deathSaveSuccesses = c.deathSaveSuccesses)
    (hf : c2.deathSaveFailures = c.deathSaveFailures)
    (hst : c2.isStable = c.isStable) (hdd : c2.isDead = c.isDead)
    (h : CombInv c) : CombInv c2 := by
  unfold CombInv at h ⊢
  rw [hhp, hm, hs, hf, hst, hdd]
  exact h

theorem setC_setC (l : List Combatant) (i : Nat) (a b : Combatant) :
    setC (setC l i a) i b = setC l i b := by
  simp [setC, List.set_set]

theorem mem_setC_cases : ∀ (l : List Combatant) (i : Nat) (b a : Combatant),
    a ∈ setC l i b → a ∈ l ∨ (a = b ∧ i < l.length) := by
  intro l
  induction l with
  | nil => intro i b a h; exact absurd h (by simp [setC])
  | cons x xs ih =>
    intro i b a h
    cases i with
    | zero =>
      rcases List.mem_cons.mp h with h1 | h1
      · exact Or.inr ⟨h1, by simp⟩
      · exact Or.inl (List.mem_cons_of_mem x h1)
    | succ j =>
      rcases List.mem_cons.mp h with h1 | h1
      · exact Or.inl (h1 ▸ List.mem_cons_self x xs)
      · rcases ih j b a h1 with h2 | ⟨h2, h3⟩
        · exact Or.inl (List.mem_cons_of_mem x h2)
        · exact Or.inr ⟨h2, by simpa using h3⟩

theorem getC_mem (l : List Combatant) (i : Nat) (h : i < l.length) :
    getC l i ∈ l := by
  rw [getC_eq_get l i h]
  exact l.get_mem i h

theorem getIndexById_some_lt : ∀ (l : List Combatant) (x : Int) (i : Nat),
    getIndexById l x = some i → i < l.length := by
  intro l
  induction l with
  | nil => intro x i h; exact absurd h (by simp [getIndexById])
  | cons a as ih =>
    intro x i h
    unfold getIndexById at h
    split at h
    · cases h; simp
    · rcases Option.map_eq_some'.mp h with ⟨j, hj, rfl⟩
      have := ih x j hj
      simp only [List.length_cons]
      omega

theorem mem_insertC : ∀ (l : List Combatant) (c x : Combatant),
    x ∈ insertC c l → x = c ∨ x ∈ l := by
  intro l
  induction l with
  | nil => intro c x h; simpa [insertC] using h
  | cons d ds ih =>
    intro c x h
    unfold insertC at h
    split at h
    · rcases List.mem_cons.mp h with h1 | h1
      · exact Or.inl h1
      · exact Or.inr h1
    · rcases List.mem_cons.mp h with h1 | h1
      · exact Or.inr (h1 ▸ List.mem_cons_self d ds)
      · rcases ih c x h1 with h2 | h2
        · exact Or.inl h2
        · exact Or.inr (List.mem_cons_of_mem d h2)

theorem mem_sortCList : ∀ (l : List Combatant) (x : Combatant),
    x ∈ sortCList l → x ∈ l := by
  intro l
  induction l with
  | nil => intro x h; exact absurd h (by simp [sortCList])
  | cons c cs ih =>
    intro x h
    unfold sortCList at h
    rcases mem_insertC _ _ _ h with h1 | h1
    · exact h1 ▸ List.mem_cons_self c cs
    · exact List.mem_cons_of_mem c (ih x h1)

theorem combInvAll_applyCondOp (tid : Int) (s : GameState) (op : CondOp)
    (h : ∀ x ∈ s.combatants, CombInv x) :
    ∀ x ∈ (applyCondOp tid s op).combatants, CombInv x := by
  unfold applyCondOp logAction
  dsimp only
  repeat' split
  all_goals first
    | exact h
    | (intro x hx
       rcases mem_setC_cases _ _ _ _ hx with hm | ⟨rfl, hlen⟩
       · exact h x hm
       · have hc := h _ (getC_mem _ _ hlen)
         unfold CombInv at hc ⊢
         dsimp only
         omega)

theorem combInvAll_condFold (tid : Int) : ∀ (ops : List CondOp) (s : GameState),
    (∀ x ∈ s.combatants, CombInv x) →
    ∀ x ∈ (ops.foldl (applyCondOp tid) s).combatants, CombInv x := by
  intro ops
  induction ops with
  | nil => intro s h; exact h
  | cons op ops ih =>
    intro s h
    simp only [List.foldl_cons]
    exact ih _ (combInvAll_applyCondOp tid s op h)

theorem combInvAll_stabilizeCombatant (s : GameState)
    (h : ∀ x ∈ s.combatants, CombInv x) :
    ∀ x ∈ (stabilizeCombatant s).combatants, CombInv x := by
  unfold stabilizeCombatant logAction
  dsimp only
  repeat' split
  all_goals first
    | exact h
    | (intro x hx
       rcases mem_setC_cases _ _ _ _ hx with hm | ⟨rfl, hlen⟩
       · exact h x hm
       · have hc := h _ (getC_mem _ _ hlen)
         unfold CombInv at hc ⊢
         dsimp only [resetDeathSaves]
         omega)

theorem combInvAll_handleDamageAtZeroHp (b : Bool) (idx : Nat) (s : GameState)
    (h : ∀ x ∈ s.combatants, CombInv x) :
    ∀ x ∈ (handleDamageAtZeroHp b idx s).combatants, CombInv x := by
  unfold handleDamageAtZeroHp logAction
  dsimp only
  repeat' split
  all_goals first
    | exact h
    | (intro x hx
       first
         | rw [setC_setC, setC_setC] at hx
         | rw [setC_setC] at hx
         | skip
       rcases mem_setC_cases _ _ _ _ hx with hm | ⟨rfl, hlen⟩
       · exact h x hm
       · have hc := h _ (getC_mem _ _ hlen)
         unfold CombInv at hc ⊢
         dsimp only at *
         omega)

theorem combInvAll_rollDeathSaveAt (r idx : Nat) (s : GameState)
    (h : ∀ x ∈ s.combatants, CombInv x) :
    ∀ x ∈ (rollDeathSaveAt r idx s).combatants, CombInv x := by
  unfold rollDeathSaveAt logAction
  dsimp only
  repeat' split
  all_goals first
    | exact h
    | (intro x hx
       first
         | rw [setC_setC, setC_setC] at hx
         | rw [setC_setC] at hx
         | skip
       rcases mem_setC_cases _ _ _ _ hx with hm | ⟨rfl, hlen⟩
       · exact h x hm
       · have hc := h _ (getC_mem _ _ hlen)
         unfold CombInv at hc ⊢
         dsimp only [resetDeathSaves]
         omega)

theorem combInvAll_rollDeathSaveSelected (r : Nat) (s : GameState)
    (h : ∀ x ∈ s.combatants, CombInv x) :
    ∀ x ∈ (rollDeathSaveSelected r s).combatants, CombInv x := by
  unfold rollDeathSaveSelected
  split
  · exact h
  · exact combInvAll_rollDeathSaveAt _ _ _ h

theorem combInvAll_decrement (s : GameState) (h : ∀ x ∈ s.combatants, CombInv x) :
    ∀ x ∈ (decrementConditionDurations s).combatants, CombInv x := by
  unfold decrementConditionDurations
  dsimp only
  intro x hx
  rcases List.mem_map.mp hx with ⟨c0, hc0, rfl⟩
  have hc := h c0 hc0
  unfold CombInv at hc ⊢
  unfold decrementCombatant
  dsimp only
  exact hc

theorem combInvAll_nextTurnFinish (r idx : Nat) (s : GameState)
    (h : ∀ x ∈ s.combatants, CombInv x) :
    ∀ x ∈ (nextTurnFinish r idx s).combatants, CombInv x := by
  unfold nextTurnFinish logAction
  dsimp only
  split
  · exact combInvAll_rollDeathSaveAt _ _ _ h
  · exact h

theorem combInvAll_nextTurn (r : Nat) (s : GameState)
    (h : ∀ x ∈ s.combatants, CombInv x) :
    ∀ x ∈ (nextTurn r s).combatants, CombInv x := by
  unfold nextTurn
  dsimp only
  repeat' split
  all_goals first
    | exact h
    | exact combInvAll_nextTurnFinish _ _ _ h
    | exact combInvAll_nextTurnFinish _ _ _ (combInvAll_decrement _ h)

theorem combInvAll_prevTurn (s : GameState) (h : ∀ x ∈ s.combatants, CombInv x) :
    ∀ x ∈ (prevTurn s).combatants, CombInv x := by
  unfold prevTurn prevTurnFinish logAction
  dsimp only
  repeat' split
  all_goals exact h

theorem combInvAll_moveSelection (d : Int) (s : GameState)
    (h : ∀ x ∈ s.combatants, CombInv x) :
    ∀ x ∈ (moveSelection d s).combatants, CombInv x := by
  unfold moveSelection
  dsimp only
  repeat' split
  all_goals exact h

theorem combInvAll_rerollInitiative (v : Int) (s : GameState)
    (h : ∀ x ∈ s.combatants, CombInv x) :
    ∀ x ∈ (rerollInitiative v s).combatants, CombInv x := by
  unfold rerollInitiative sortCombatants logAction
  dsimp only
  repeat' split
  all_goals first
    | exact h
    | (intro x hx
       first
         | replace hx := mem_sortCList _ _ hx
         | skip
       rcases mem_setC_cases _ _ _ _ hx with hm | ⟨rfl, hlen⟩
       · exact h x hm
       · have hc := h _ (getC_mem _ _ hlen)
         unfold CombInv at hc ⊢
         dsimp only
         omega)

theorem combInvAll_addCombatant (p : Bool) (nm : List Char) (ini dx mhp : Int)
    (s : GameState) (h : ∀ x ∈ s.combatants, CombInv x) :
    ∀ x ∈ (addCombatant p nm ini dx mhp s).combatants, CombInv x := by
  unfold addCombatant sortCombatants logAction
  dsimp only
  repeat' split
  all_goals first
    | exact h
    | (intro x hx
       first
         | replace hx := mem_sortCList _ _ hx
         | skip
       rcases List.mem_append.mp hx with hm | hm
       · exact h x hm
       · rw [List.mem_singleton] at hm
         subst hm
         unfold CombInv
         dsimp only
         omega)

theorem combInvAll_removeCombatant (cf : Bool) (s : GameState)
    (h : ∀ x ∈ s.combatants, CombInv x) :
    ∀ x ∈ (removeCombatant cf s).combatants, CombInv x := by
  unfold removeCombatant logAction
  dsimp only
  repeat' split
  all_goals first
    | exact h
    | (intro x hx
       exact h x (List.eraseIdx_subset _ _ hx))

theorem combInvAll_editHpTail (t : GameState) (idx : Nat) (oldHp : Int)
    (h : ∀ x ∈ t.combatants, CombInv x) :
    ∀ x ∈ (
      let c2 := getC t.combatants idx
      if c2.ctype = 0 then
        if c2.hp = 0 ∧ oldHp > 0 then
          if c2.conditions &&& 8192 = 0 then
            let c3 := resetDeathSaves { c2 with conditions := c2.conditions ||| 8192 }
            logAction { t with combatants := setC t.combatants idx c3 }
          else t
        else if c2.hp > 0 ∧ oldHp ≤ 0 then
          if c2.conditions &&& 8192 ≠ 0 then
            let c3 := { resetDeathSaves { c2 with conditions := c2.conditions &&& 57343 }
              with isDead := 0 }
            logAction { t with combatants := setC t.combatants idx c3 }
          else t
        else t
      else t).combatants, CombInv x := by
  unfold logAction
  dsimp only
  repeat' split
  all_goals first
    | exact h
    | (intro x hx
       dsimp only at hx
       rcases mem_setC_cases _ _ _ _ hx with hm | ⟨rfl, hlen⟩
       · exact h x hm
       · have hc := h _ (getC_mem _ _ hlen)
         unfold CombInv at hc ⊢
         dsimp only [resetDeathSaves]
         omega)

theorem combInvAll_editHp (ch : Int) (cr : Bool) (s : GameState)
    (h : ∀ x ∈ s.combatants, CombInv x) :
    ∀ x ∈ (editHp ch cr s).combatants, CombInv x := by
  unfold editHp
  split
  · exact h
  next idx hidx =>
    dsimp only
    by_cases hco : (if ch < 0 then -ch else 0) > 0 ∧ (getC s.combatants idx).hp > 0 ∧
        (getC s.combatants idx).hp - (if ch < 0 then -ch else 0) ≤ 0 ∧
        (if ch < 0 then -ch else 0) - (getC s.combatants idx).hp ≥ (getC s.combatants idx).maxHp
    · rw [if_pos hco]
      unfold logAction
      intro x hx
      dsimp only at hx
      rcases mem_setC_cases _ _ _ _ hx with hm | ⟨rfl, hlen⟩
      · exact h x hm
      · have hc := h _ (getC_mem _ _ hlen)
        unfold CombInv at hc ⊢
        dsimp only [resetDeathSaves]
        omega
    · rw [if_neg hco]
      refine combInvAll_editHpTail _ idx _ ?_
      unfold logAction
      repeat' split
      all_goals first
        | (apply combInvAll_handleDamageAtZeroHp
           intro y hy
           dsimp only at hy
           rcases mem_setC_cases _ _ _ _ hy with hm2 | ⟨rfl, hlen2⟩
           · exact h y hm2
           · have hc := h _ (getC_mem _ _ hlen2)
             unfold CombInv at hc ⊢
             dsimp only
             omega)
        | (intro y hy
           dsimp only at hy
           rcases mem_setC_cases _ _ _ _ hy with hm2 | ⟨rfl, hlen2⟩
           · exact h y hm2
           · have hc := h _ (getC_mem _ _ hlen2)
             unfold CombInv at hc ⊢
             dsimp only
             omega)

theorem mem_state_ite_cases (P : Prop) [Decidable P] (t1 t2 : GameState) (x : Combatant)
    (h : x ∈ (if P then t1 else t2).combatants) : x ∈ t1.combatants ∨ x ∈ t2.combatants := by
  split at h
  · exact Or.inl h
  · exact Or.inr h

theorem combInv_getC_ite (P : Prop) [Decidable P] (l1 l2 : List Combatant) (idx : Nat)
    (h1 : CombInv (getC l1 idx)) (h2 : CombInv (getC l2 idx)) :
    CombInv (getC (if P then l1 else l2) idx) := by
  split
  · exact h1
  · exact h2

theorem mem_ite_cases (P : Prop) [Decidable P] (l1 l2 : List Combatant) (x : Combatant)
    (h : x ∈ if P then l1 else l2) : x ∈ l1 ∨ x ∈ l2 := by
  split at h
  · exact Or.inl h
  · exact Or.inr h

theorem combInvAll_dupLoop (base : List Char) (sn : Int) (src : Combatant)
    (rolls : List Nat) (hsrc : CombInv src) :
    ∀ (k i : Nat) (s : GameState), (∀ x ∈ s.combatants, CombInv x) →
    ∀ x ∈ (dupLoop base sn src rolls k i s).combatants, CombInv x := by
  intro k
  induction k with
  | zero => intro i s h; exact h
  | succ k ih =>
    intro i s h
    unfold dupLoop
    split
    · exact h
    · apply ih
      intro x hx
      dsimp only at hx
      rcases List.mem_append.mp hx with hm | hm
      · exact h x hm
      · rw [List.mem_singleton] at hm
        subst hm
        unfold CombInv at hsrc ⊢
        dsimp only
        omega

theorem combInvAll_duplicateCombatant (n : Nat) (rolls : List Nat) (s : GameState)
    (h : ∀ x ∈ s.combatants, CombInv x) :
    ∀ x ∈ (duplicateCombatant n rolls s).combatants, CombInv x := by
  unfold duplicateCombatant
  split
  · exact h
  split
  · exact h
  next idx hidx =>
    dsimp only
    split
    · exact h
    split
    · exact h
    unfold logAction sortCombatants
    simp only [apply_ite GameState.combatants, ite_self]
    intro x hx
    rcases mem_ite_cases _ _ _ _ hx with hx | hx
    all_goals (
      first
        | replace hx := mem_sortCList _ _ hx
        | skip
      refine combInvAll_dupLoop _ _ _ _ ?_ _ _ _ ?_ x hx <;>
        first
          | exact h
          | (exact h _ (getC_mem _ _ (getIndexById_some_lt _ _ _ hidx)))
          | (intro y hy
             rcases mem_ite_cases _ _ _ _ hy with hy | hy
             · exact h y hy
             · rcases mem_setC_cases _ _ _ _ hy with hm2 | ⟨rfl, hlen2⟩
               · exact h y hm2
               · have hc := h _ (getC_mem _ _ hlen2)
                 unfold CombInv at hc ⊢
                 dsimp only
                 omega)
          | (intro y hy
             rcases mem_state_ite_cases _ _ _ _ hy with hy | hy
             · exact h y hy
             · dsimp only at hy
               rcases mem_setC_cases _ _ _ _ hy with hm2 | ⟨rfl, hlen2⟩
               · exact h y hm2
               · have hc := h _ (getC_mem _ _ hlen2)
                 unfold CombInv at hc ⊢
                 dsimp only
                 omega)
          | (have hlen := getIndexById_some_lt _ _ _ hidx
             have hc := h _ (getC_mem _ _ hlen)
             apply combInv_getC_ite
             · exact hc
             · rw [getC_setC hlen]
               unfold CombInv at hc ⊢
               dsimp only
               omega))

theorem undoStack_moveSelection (d : Int) (s : GameState) :
    (moveSelection d s).undoStack = s.undoStack := by
  unfold moveSelection
  dsimp only
  repeat' split
  all_goals rfl

theorem stInv_saveUndoState (s : GameState) (h : StInv s) : StInv (saveUndoState s) := by
  obtain ⟨h1, h2⟩ := h
  unfold saveUndoState snapOf
  dsimp only
  refine ⟨h1, ?_⟩
  intro u hu c hc
  rcases List.mem_append.mp hu with hm | hm
  · split at hm
    · exact h2 u (List.tail_subset _ hm) c hc
    · exact h2 u hm c hc
  · rw [List.mem_singleton] at hm
    subst hm
    exact h1 c (List.take_subset _ _ hc)

theorem stInv_undoLastAction (s : GameState) (h : StInv s) : StInv (undoLastAction s) := by
  obtain ⟨h1, h2⟩ := h
  unfold undoLastAction logAction
  split
  · exact ⟨h1, h2⟩
  next p hp =>
    refine ⟨?_, ?_⟩
    · intro c hc
      dsimp only at hc
      exact h2 p (List.mem_of_mem_getLast? hp) c (List.take_subset _ _ hc)
    · intro u hu c hc
      dsimp only at hu
      exact h2 u (List.dropLast_subset _ hu) c hc

theorem stInv_execCommand (c : Command) (s : GameState) (hnl : c.isLoad = false)
    (h : StInv s) : StInv (execCommand c s) := by
  have hsu : StInv (saveUndoState s) := stInv_saveUndoState s h
  cases c with
  | add p nm i d m =>
    simp only [execCommand]
    exact ⟨combInvAll_addCombatant _ _ _ _ _ _ hsu.1,
      by rw [undoStack_addCombatant]; exact hsu.2⟩
  | snapOnly => exact hsu
  | remove cf =>
    simp only [execCommand]
    split
    · exact ⟨combInvAll_removeCombatant _ _ hsu.1,
        by rw [undoStack_removeCombatant]; exact hsu.2⟩
    · exact h
  | editHp ch cr =>
    simp only [execCommand]
    split
    · exact ⟨combInvAll_editHp _ _ _ hsu.1, by rw [undoStack_editHp]; exact hsu.2⟩
    · exact h
  | reroll v =>
    simp only [execCommand]
    split
    · exact ⟨combInvAll_rerollInitiative _ _ hsu.1,
        by rw [undoStack_rerollInitiative]; exact hsu.2⟩
    · exact h
  | condSession ops =>
    simp only [execCommand]
    split
    · unfold toggleConditionSession
      split
      · exact h
      · split
        · exact h
        · exact ⟨combInvAll_condFold _ _ _ hsu.1, by rw [undoStack_condFold]; exact hsu.2⟩
    · exact h
  | next r =>
    simp only [execCommand]
    split
    · exact ⟨combInvAll_nextTurn _ _ hsu.1, by rw [undoStack_nextTurn]; exact hsu.2⟩
    · exact h
  | prev =>
    simp only [execCommand]
    split
    · exact ⟨combInvAll_prevTurn _ hsu.1, by rw [undoStack_prevTurn]; exact hsu.2⟩
    · exact h
  | save => exact h
  | load cf f => exact absurd hnl (by simp [Command.isLoad])
  | exportLog =>
    simp only [execCommand]
    split
    · exact ⟨h.1, h.2⟩
    · exact h
  | undo => exact stInv_undoLastAction s h
  | deathSave r =>
    simp only [execCommand]
    split
    · exact ⟨combInvAll_rollDeathSaveSelected _ _ hsu.1,
        by rw [undoStack_rollDeathSaveSelected]; exact hsu.2⟩
    · exact h
  | stabilize =>
    simp only [execCommand]
    split
    · exact ⟨combInvAll_stabilizeCombatant _ hsu.1,
        by rw [undoStack_stabilizeCombatant]; exact hsu.2⟩
    · exact h
  | duplicate n rolls =>
    simp only [execCommand]
    split
    · exact ⟨combInvAll_duplicateCombatant _ _ _ hsu.1,
        by rw [undoStack_duplicateCombatant]; exact hsu.2⟩
    · exact h
  | moveSel d =>
    simp only [execCommand]
    split
    · exact ⟨combInvAll_moveSelection _ _ h.1, by rw [undoStack_moveSelection]; exact h.2⟩
    · exact h

theorem reachableNL_stInv (s : GameState) (h : ReachableNL s) : StInv s := by
  induction h with
  | init =>
    exact ⟨fun c hc => absurd hc (List.not_mem_nil c),
           fun u hu => absurd hu (List.not_mem_nil u)⟩
  | step s c hc hs ih => exact stInv_execCommand c s hc ih

/-- C3 (amended).  In every state reachable from the start state by
commands other than load, every Player combatant's death-save successes
lie in [0,5] and failures in [0,4].  The counters are not capped at the
resolving transition itself: a natural 1 taken at 2 failures lands on 4
(see the counterexample theorem), and a success rolled after stability
was broken by damage can land successes on 4 and then 5, so 5 and 4 are
the exact reachable bounds, not 3. -/
theorem C3_counter_bounds_amended (s : GameState) (h : ReachableNL s)
    (c : Combatant) (hc : c ∈ s.combatants) (hp : c.ctype = 0) :
    0 ≤ c.deathSaveSuccesses ∧ c.deathSaveSuccesses ≤ 5 ∧
    0 ≤ c.deathSaveFailures ∧ c.deathSaveFailures ≤ 4 := by
  have hi := (reachableNL_stInv s h).1 c hc
  unfold CombInv at hi
  exact ⟨hi.2.2.2.1, hi.2.2.2.2.1, hi.2.2.2.2.2.1, hi.2.2.2.2.2.2.1⟩

theorem C3_counter_bounds_witness :
    (mkComb 1 [ 'A' ] 0 0 0 5 5 ∈
        (execCommand (Command.add true [ 'A' ] 0 0 5) initState).combatants ∧
      (mkComb 1 [ 'A' ] 0 0 0 5 5).ctype = 0) ∧
    0 ≤ (mkComb 1 [ 'A' ] 0 0 0 5 5).deathSaveSuccesses ∧
    (mkComb 1 [ 'A' ] 0 0 0 5 5).deathSaveSuccesses ≤ 5 ∧
    0 ≤ (mkComb 1 [ 'A' ] 0 0 0 5 5).deathSaveFailures ∧
    (mkComb 1 [ 'A' ] 0 0 0 5 5).deathSaveFailures ≤ 4 :=
  ⟨⟨by decide, by decide⟩,
   C3_counter_bounds_amended _
     (ReachableNL.step initState (Command.add true [ 'A' ] 0 0 5) rfl ReachableNL.init)
     _ (by decide) (by decide)⟩

/-- C5 (amended).  In every state reachable from the start state by
commands other than load, every combatant satisfies
`0 ≤ hp ≤ maxHp` and `maxHp ≥ 1`: every HP edit clamps into range and
every spawn requires a positive max HP.  Load performs no such
validation (see the counterexample theorem), so the bounds hold after a
load only when the file itself was written from a bounded state. -/
theorem C5_hp_bounds_amended (s : GameState) (h : ReachableNL s)
    (c : Combatant) (hc : c ∈ s.combatants) :
    0 ≤ c.hp ∧ c.hp ≤ c.maxHp ∧ 1 ≤ c.maxHp := by
  have hi := (reachableNL_stInv s h).1 c hc
  unfold CombInv at hi
  exact ⟨hi.1, hi.2.1, hi.2.2.1⟩

theorem C5_hp_bounds_witness :
    (mkComb 1 [ 'B' ] 0 2 1 7 7 ∈
        (execCommand (Command.add true [ 'B' ] 2 1 7) initState).combatants) ∧
    0 ≤ (mkComb 1 [ 'B' ] 0 2 1 7 7).hp ∧
    (mkComb 1 [ 'B' ] 0 2 1 7 7).hp ≤ (mkComb 1 [ 'B' ] 0 2 1 7 7).maxHp ∧
    1 ≤ (mkComb 1 [ 'B' ] 0 2 1 7 7).maxHp :=
  ⟨by decide,
   C5_hp_bounds_amended _
     (ReachableNL.step initState (Command.add true [ 'B' ] 2 1 7) rfl ReachableNL.init)
     _ (by decide)⟩
